import Mathlib

/-! # motan-go: ZooKeeper registry (`registry/zkRegistry.go`)

A shallow embedding of the ZooKeeper-backed service registry and the
properties its specification states about it.

Conventions of the embedding.

* A Go `map[K]V` is an association list `GoMap K V`.  `set` puts the binding
  in front after removing any older binding of the key, `delete` removes every
  binding of the key, `get?` is the comma-ok lookup.  Go leaves the iteration
  order of a map unspecified; a `range` loop is a fold over the list.
* `*motan.URL` is the value type `URL`; the nil pointer is `none` where the
  source accepts it (`Available(nil)`, `Unavailable(nil)`, the values of the
  available service map).
* The ZooKeeper connection is the record `ZkConn σ` of the store calls the
  registry makes, over an arbitrary store state `σ`; a call that fails
  returns `Except.error` and leaves the store as it was.
* `createPersistent` recurses on the store's answers, therefore it and its
  callers take a recursion budget and return `none` when it is exhausted.
  `TreeStore` states the parent rule of `Create`; under it a budget of the
  number of path components is enough.
* Locks, logging and the body of the watcher goroutines are not part of the
  state.  A send on a switch channel is taken to complete and is recorded in
  `switchSent`.
-/

namespace Motan

/-! ## The URL value object (package `core`) -/

/-- A Go map as an association list. -/
abbrev GoMap (κ ν : Type) := List (κ × ν)

/-- The comma-ok lookup `v, ok := m[k]`. -/
def GoMap.get? {κ ν : Type} [DecidableEq κ] (m : GoMap κ ν) (k : κ) : Option ν :=
  match m with
  | [] => none
  | (k', v) :: rest => if k' = k then some v else GoMap.get? rest k

/-- The builtin `delete(m, k)`. -/
def GoMap.delete {κ ν : Type} [DecidableEq κ] (m : GoMap κ ν) (k : κ) : GoMap κ ν :=
  m.filter (fun p => !decide (p.1 = k))

/-- The assignment `m[k] = v`. -/
def GoMap.set {κ ν : Type} [DecidableEq κ] (m : GoMap κ ν) (k : κ) (v : ν) : GoMap κ ν :=
  (k, v) :: GoMap.delete m k

/-- The keys of a map, in iteration order. -/
def GoMap.keys {κ ν : Type} (m : GoMap κ ν) : List κ :=
  m.map Prod.fst

/-- The values of a map, in iteration order. -/
def GoMap.values {κ ν : Type} (m : GoMap κ ν) : List ν :=
  m.map Prod.snd

/-- The fields of `motan.URL` that the registry reads or writes. -/
structure URL where
  Protocol : String
  Host : String
  Port : Int
  Path : String
  Group : String
  Parameters : GoMap String String
deriving DecidableEq, Repr

/-- The constant `motan.ApplicationKey`. -/
def ApplicationKey : String := "application"

/-- The constant `motan.NodeTypeKey`. -/
def NodeTypeKey : String := "nodeType"

/-- The constant `motan.NodeTypeReferer`. -/
def NodeTypeReferer : String := "referer"

/-- Modelled from the spec: `URL.GetAddressStr` of package `core`, which the
spec gives as `host:port`. -/
def URL.GetAddressStr (u : URL) : String :=
  u.Host ++ ":" ++ toString u.Port

/-- Modelled from the spec: `URL.GetParam(k, default)` of package `core`, the
parameter stored under `k`, or the default when there is none. -/
def URL.GetParam (u : URL) (key : String) (defaultValue : String) : String :=
  match GoMap.get? u.Parameters key with
  | some v => v
  | none => defaultValue

/-- Modelled from the spec: `URL.PutParam(k, v)` of package `core`, which
stores `v` under `k` in the parameter map. -/
def URL.PutParam (u : URL) (key : String) (value : String) : URL :=
  { u with Parameters := GoMap.set u.Parameters key value }

/-- Modelled from the spec: `IsAgent` of package `registry` (file
`registry.go`), true for a URL whose `nodeType` parameter is `agent`. -/
def IsAgent (url : URL) : Bool :=
  decide (url.GetParam NodeTypeKey "" = "agent")

/-- The functions of package `core` whose result the spec leaves open: the
identity key of a URL, its serialisation, and the local address. -/
structure MotanCore where
  GetIdentity : URL → String
  ToExtInfo : URL → String
  GetLocalIP : String

/-! ## Constants of `zkRegistry.go` -/

def zkRegistryNamespace : String := "/motan"

def zkRegistryCommand : String := "/command"

def zkRegistryNode : String := "/node"

def zkPathSeparator : String := "/"

def zkNodeTypeServer : String := "server"

def zkNodeTypeUnavailableServer : String := "unavailableServer"

def zkNodeTypeClient : String := "client"

def zkNodeTypeAgent : String := "agent"

def streamMagicTag : Nat := 0xaced

def shortStringTag : UInt8 := 0x74

def longStringTag : UInt8 := 0x7C

/-! ## Path encoders -/

def toGroupPath (url : URL) : String :=
  zkRegistryNamespace ++ zkPathSeparator ++ url.Group

def toServicePath (url : URL) : String :=
  toGroupPath url ++ zkPathSeparator ++ url.Path

def toCommandPath (url : URL) : String :=
  toGroupPath url ++ zkRegistryCommand

def toNodeTypePath (url : URL) (nodeType : String) : String :=
  toServicePath url ++ zkPathSeparator ++ nodeType

def toNodePath (url : URL) (nodeType : String) : String :=
  toNodeTypePath url nodeType ++ zkPathSeparator ++ url.GetAddressStr

def toAgentPath (url : URL) : String :=
  zkRegistryNamespace ++ zkPathSeparator ++ zkNodeTypeAgent ++ zkPathSeparator
    ++ url.GetParam ApplicationKey ""

def toAgentNodeTypePath (url : URL) : String :=
  toAgentPath url ++ zkRegistryNode

def toAgentNodePath (url : URL) : String :=
  toAgentNodeTypePath url ++ zkPathSeparator ++ url.GetAddressStr

def toAgentCommandPath (url : URL) : String :=
  toAgentPath url ++ zkRegistryCommand

/-! ## Node-info codec -/

/-- The call `binary.BigEndian.Uint16(data[:2])`, for a slice of at least two
bytes. -/
def bigEndianUint16 (data : List UInt8) : Nat :=
  (data.getD 0 0).toNat * 256 + (data.getD 1 0).toNat

/-- The function `getNodeInfo`.  A Go string is a byte sequence and
`string(data[i:])` copies the bytes, so the result is the list of bytes of the
returned string. -/
def getNodeInfo (data : List UInt8) : List UInt8 :=
  if data.length > 7 ∧ bigEndianUint16 data = streamMagicTag then
    if data.getD 4 0 = shortStringTag then
      data.drop 7
    else if data.getD 4 0 = longStringTag ∧ data.length > 13 then
      data.drop 13
    else
      data
  else
    data

/-- The bytes of a text string, `[]byte(s)`. -/
def utf8Bytes (s : String) : List UInt8 :=
  s.toUTF8.data.toList

/-- The short-string frame around a content: magic `0xAC 0xED`, two version
bytes, tag `0x74`, the big-endian 16-bit length, the content. -/
def shortStringFrame (v1 v2 : UInt8) (content : List UInt8) : List UInt8 :=
  [0xAC, 0xED, v1, v2, 0x74, UInt8.ofNat (content.length / 256),
    UInt8.ofNat (content.length % 256)] ++ content

/-- Whether a payload starts with the magic bytes `0xAC 0xED`. -/
def startsWithMagic (data : List UInt8) : Prop :=
  data.take 2 = [0xAC, 0xED]

/-- The byte at offset 4 is neither the short-string tag nor the long-string
tag. -/
def tagIsNeither (data : List UInt8) : Prop :=
  data[4]? ≠ some 0x74 ∧ data[4]? ≠ some 0x7C

/-- The payload is too short to hold the frame header: 7 bytes for a short
string, 13 bytes for a long string. -/
def tooShortForHeader (data : List UInt8) : Prop :=
  data.length < 7 ∨ (data[4]? = some 0x7C ∧ data.length < 13)

/-- The number written big-endian in a list of bytes. -/
def bigEndianNat (bytes : List UInt8) : Nat :=
  bytes.foldl (fun acc b => acc * 256 + b.toNat) 0

/-- The declared length (2 bytes at offsets 5..6 for tag `0x74`, 8 bytes at
offsets 5..12 for tag `0x7C`) differs from the number of content bytes. -/
def declaredLengthDiffers (data : List UInt8) : Prop :=
  (data[4]? = some 0x74 ∧ bigEndianNat ((data.drop 5).take 2) ≠ data.length - 7)
    ∨ (data[4]? = some 0x7C ∧ bigEndianNat ((data.drop 5).take 8) ≠ data.length - 13)

/-- The payloads that the specification of the codec calls not a well-formed
frame. -/
def notWellFormedFrame (data : List UInt8) : Prop :=
  ¬ startsWithMagic data ∨ tagIsNeither data ∨ tooShortForHeader data
    ∨ declaredLengthDiffers data

/-- A short-string frame that declares five content bytes and carries one. -/
def lengthMismatchFrame : List UInt8 :=
  [0xAC, 0xED, 0x00, 0x05, 0x74, 0x00, 0x05, 0x61]

/-! ## The store connection (`zk.Conn`) -/

/-- The errors of the store the registry tells apart: `zk.ErrNoNode`, and the
others. -/
inductive ZkErr where
  | ErrNoNode
  | ErrNodeExists
  | ErrOther
deriving DecidableEq, Repr

/-- The constant `zk.FlagEphemeral`. -/
def FlagEphemeral : Int := 1

/-- The store calls of `zk.Conn` that the registry makes, over a store state
`σ`.  `Exists` answers with the existence flag and the node version of the
returned `Stat`; `Delete` takes a path and a version; `Create` takes a path,
the payload and the flags (the ACL is always `WorldACL(PermAll)`);
`ChildrenW` answers with the child names. -/
structure ZkConn (σ : Type) where
  Exists : σ → String → Except ZkErr (Bool × Int)
  Delete : σ → String → Int → Except ZkErr σ
  Create : σ → String → String → Int → Except ZkErr σ
  ChildrenW : σ → String → Except ZkErr (List String)

/-- Whether the store reports, without error, that a node exists. -/
def nodeExists {σ : Type} (zk : ZkConn σ) (s : σ) (path : String) : Bool :=
  match zk.Exists s path with
  | Except.ok (isExist, _) => isExist
  | Except.error _ => false

/-! ## Registry state -/

/-- A `motan.NotifyListener`, an interface value used as a map key: its
address. -/
abbrev NotifyListener := Nat

/-- The fields of `ZkRegistry` that the registration and subscription
operations use.  `switcherMap` keeps which paths have a switch channel;
`switchSent` lists, oldest first, the values sent on the switch channels with
the path of the channel. -/
structure ZkRegistry (σ : Type) where
  available : Bool
  zkConn : σ
  switcherMap : GoMap String Unit
  registeredServiceMap : GoMap String URL
  availableServiceMap : GoMap String (Option URL)
  subscribedServiceMap : GoMap String (GoMap NotifyListener URL)
  switchSent : List (String × Bool)

/-- The maps made by `Initialize`, on a connection that was established. -/
def Initialize {σ : Type} (conn : σ) : ZkRegistry σ :=
  { available := true
    zkConn := conn
    switcherMap := []
    registeredServiceMap := []
    availableServiceMap := []
    subscribedServiceMap := []
    switchSent := [] }

/-! ## Node operations -/

/-- The method `removeNode`. -/
def removeNode {σ : Type} (zk : ZkConn σ) (s : σ) (url : URL) (nodeType : String) : σ :=
  let nodePath :=
    if nodeType = zkNodeTypeAgent then toAgentNodePath url else toNodePath url nodeType
  match zk.Exists s nodePath with
  | Except.ok (true, version) =>
    match zk.Delete s nodePath version with
    | Except.ok s1 => s1
    | Except.error _ => s
  | _ => s

/-- The expression `strings.Join(parts[:len(parts)-1], "/")` for
`parts := strings.Split(path, "/")`. -/
def parentPath (path : String) : String :=
  String.mk (List.intercalate ['/'] ((path.toList.splitOn '/').dropLast))

/-- The method `createPersistent`; `none` when the recursion budget is used
up. -/
def createPersistent {σ : Type} (zk : ZkConn σ) (s : σ) (path : String) (createParents : Bool) :
    Nat → Option σ
  | 0 => none
  | fuel + 1 =>
    match zk.Create s path "" 0 with
    | Except.ok s1 => some s1
    | Except.error err =>
      if err = ZkErr.ErrNoNode ∧ createParents = true then
        match createPersistent zk s (parentPath path) createParents fuel with
        | none => none
        | some s1 => createPersistent zk s1 path createParents fuel
      else
        some s

/-- The method `createNode`. -/
def createNode {σ : Type} (core : MotanCore) (zk : ZkConn σ) (fuel : Nat) (s : σ) (url : URL)
    (nodeType : String) : Option σ :=
  let typePath :=
    if nodeType = zkNodeTypeAgent then toAgentNodeTypePath url else toNodeTypePath url nodeType
  let nodePath :=
    if nodeType = zkNodeTypeAgent then toAgentNodePath url else toNodePath url nodeType
  let s1 := removeNode zk s url nodeType
  match zk.Exists s1 typePath with
  | Except.error _ => some s1
  | Except.ok (isExist, _) =>
    let ensured := if isExist then some s1 else createPersistent zk s1 typePath true fuel
    match ensured with
    | none => none
    | some s2 =>
      match zk.Create s2 nodePath (core.ToExtInfo url) FlagEphemeral with
      | Except.ok s3 => some s3
      | Except.error _ => some s2

/-! ## Registration -/

/-- The method `doRegister`, on the store. -/
def doRegister {σ : Type} (core : MotanCore) (zk : ZkConn σ) (fuel : Nat) (s : σ) (url : URL) :
    Option σ :=
  if IsAgent url then
    createNode core zk fuel s url zkNodeTypeAgent
  else
    createNode core zk fuel (removeNode zk s url zkNodeTypeServer) url zkNodeTypeUnavailableServer

/-- The method `Register`. -/
def Register {σ : Type} (core : MotanCore) (zk : ZkConn σ) (fuel : Nat) (z : ZkRegistry σ)
    (url : URL) : Option (ZkRegistry σ) :=
  if z.available = false then some z
  else
    match GoMap.get? z.registeredServiceMap (core.GetIdentity url) with
    | some _ => some z
    | none =>
      match doRegister core zk fuel z.zkConn url with
      | none => none
      | some s =>
        some { z with
          zkConn := s
          registeredServiceMap := GoMap.set z.registeredServiceMap (core.GetIdentity url) url }

/-- The method `UnRegister`. -/
def UnRegister {σ : Type} (core : MotanCore) (zk : ZkConn σ) (z : ZkRegistry σ) (url : URL) :
    ZkRegistry σ :=
  if z.available = false then z
  else
    match GoMap.get? z.registeredServiceMap (core.GetIdentity url) with
    | none => z
    | some _ =>
      { z with
        zkConn := removeNode zk (removeNode zk z.zkConn url zkNodeTypeServer) url
          zkNodeTypeUnavailableServer
        registeredServiceMap := GoMap.delete z.registeredServiceMap (core.GetIdentity url) }

/-- The loop of `doAvailable` for a nil argument, over the entries of the
registered service map still to visit; `url` is the argument of `doAvailable`
(nil in this branch), which the loop body stores. -/
def doAvailableAll {σ : Type} (core : MotanCore) (zk : ZkConn σ) (fuel : Nat) (url : Option URL) :
    List (String × URL) → ZkRegistry σ → Option (ZkRegistry σ)
  | [], z => some z
  | (_, u) :: rest, z =>
    match createNode core zk fuel (removeNode zk z.zkConn u zkNodeTypeUnavailableServer) u
        zkNodeTypeServer with
    | none => none
    | some s =>
      doAvailableAll core zk fuel url rest
        { z with
          zkConn := s
          availableServiceMap := GoMap.set z.availableServiceMap (core.GetIdentity u) url }

/-- The method `doAvailable`. -/
def doAvailable {σ : Type} (core : MotanCore) (zk : ZkConn σ) (fuel : Nat) (z : ZkRegistry σ)
    (url : Option URL) : Option (ZkRegistry σ) :=
  match url with
  | none => doAvailableAll core zk fuel url z.registeredServiceMap z
  | some u =>
    match createNode core zk fuel (removeNode zk z.zkConn u zkNodeTypeUnavailableServer) u
        zkNodeTypeServer with
    | none => none
    | some s =>
      some { z with
        zkConn := s
        availableServiceMap := GoMap.set z.availableServiceMap (core.GetIdentity u) url }

/-- The method `Available`. -/
def Available {σ : Type} (core : MotanCore) (zk : ZkConn σ) (fuel : Nat) (z : ZkRegistry σ)
    (url : Option URL) : Option (ZkRegistry σ) :=
  if z.available = false then some z else doAvailable core zk fuel z url

/-- The loop of `doUnavailable` for a nil argument. -/
def doUnavailableAll {σ : Type} (core : MotanCore) (zk : ZkConn σ) (fuel : Nat) :
    List (String × URL) → ZkRegistry σ → Option (ZkRegistry σ)
  | [], z => some z
  | (_, u) :: rest, z =>
    match createNode core zk fuel (removeNode zk z.zkConn u zkNodeTypeServer) u
        zkNodeTypeUnavailableServer with
    | none => none
    | some s =>
      doUnavailableAll core zk fuel rest
        { z with
          zkConn := s
          availableServiceMap := GoMap.delete z.availableServiceMap (core.GetIdentity u) }

/-- The method `doUnavailable`. -/
def doUnavailable {σ : Type} (core : MotanCore) (zk : ZkConn σ) (fuel : Nat) (z : ZkRegistry σ)
    (url : Option URL) : Option (ZkRegistry σ) :=
  match url with
  | none => doUnavailableAll core zk fuel z.registeredServiceMap z
  | some u =>
    match createNode core zk fuel (removeNode zk z.zkConn u zkNodeTypeServer) u
        zkNodeTypeUnavailableServer with
    | none => none
    | some s =>
      some { z with
        zkConn := s
        availableServiceMap := GoMap.delete z.availableServiceMap (core.GetIdentity u) }

/-- The method `Unavailable`. -/
def Unavailable {σ : Type} (core : MotanCore) (zk : ZkConn σ) (fuel : Nat) (z : ZkRegistry σ)
    (url : Option URL) : Option (ZkRegistry σ) :=
  if z.available = false then some z else doUnavailable core zk fuel z url

/-- The method `GetRegisteredServices`. -/
def GetRegisteredServices {σ : Type} (z : ZkRegistry σ) : List URL :=
  GoMap.values z.registeredServiceMap

/-! ## Subscription -/

/-- The method `doSubscribe`, up to the start of the watcher goroutine.  The
URL is changed through the pointer, so the changed URL is returned with the
state. -/
def doSubscribe {σ : Type} (core : MotanCore) (zk : ZkConn σ) (fuel : Nat) (z : ZkRegistry σ)
    (url : URL) : Option (ZkRegistry σ × URL) :=
  let servicePath := toNodeTypePath url zkNodeTypeServer
  match zk.Exists z.zkConn servicePath with
  | Except.ok (true, _) =>
    match zk.ChildrenW z.zkConn servicePath with
    | Except.error _ => some (z, url)
    | Except.ok _ =>
      let switchers :=
        match GoMap.get? z.switcherMap servicePath with
        | some _ => z.switcherMap
        | none => GoMap.set z.switcherMap servicePath ()
      let url1 := url.PutParam NodeTypeKey NodeTypeReferer
      let url2 := if url1.Host = "" then { url1 with Host := core.GetLocalIP } else url1
      match createNode core zk fuel z.zkConn url2 zkNodeTypeClient with
      | none => none
      | some s => some ({ z with zkConn := s, switcherMap := switchers }, url2)
  | _ => some (z, url)

/-- The method `Subscribe`.  The listener map stores the pointer that
`doSubscribe` then writes through, so the new entry holds the URL as
`doSubscribe` leaves it. -/
def Subscribe {σ : Type} (core : MotanCore) (zk : ZkConn σ) (fuel : Nat) (z : ZkRegistry σ)
    (url : URL) (listener : NotifyListener) : Option (ZkRegistry σ × URL) :=
  if z.available = false then some (z, url)
  else
    let servicePath := toNodeTypePath url zkNodeTypeServer
    match GoMap.get? z.subscribedServiceMap servicePath with
    | some listeners =>
      some ({ z with
        subscribedServiceMap :=
          GoMap.set z.subscribedServiceMap servicePath (GoMap.set listeners listener url) }, url)
    | none =>
      match doSubscribe core zk fuel
          { z with
            subscribedServiceMap := GoMap.set z.subscribedServiceMap servicePath [(listener, url)] }
          url with
      | none => none
      | some (z1, url1) =>
        some ({ z1 with
          subscribedServiceMap :=
            GoMap.set z1.subscribedServiceMap servicePath [(listener, url1)] }, url1)

/-- The method `Unsubscribe`.  The send `switcherChan <- false` is recorded in
`switchSent`. -/
def Unsubscribe {σ : Type} (z : ZkRegistry σ) (url : URL) (listener : NotifyListener) :
    ZkRegistry σ :=
  if z.available = false then z
  else
    let servicePath := toNodeTypePath url zkNodeTypeServer
    match GoMap.get? z.subscribedServiceMap servicePath with
    | none => z
    | some listeners =>
      let remaining := GoMap.delete listeners listener
      let z1 := { z with
        subscribedServiceMap := GoMap.set z.subscribedServiceMap servicePath remaining }
      match GoMap.get? z1.switcherMap servicePath with
      | some _ =>
        if remaining.length < 1 then
          { z1 with
            switchSent := z1.switchSent ++ [(servicePath, false)]
            subscribedServiceMap := GoMap.delete z1.subscribedServiceMap servicePath }
        else z1
      | none => z1

/-! ## Sequences of registration calls -/

/-- A call of one of the four registration operations. -/
inductive RegOp where
  | Register (url : URL)
  | UnRegister (url : URL)
  | Available (url : Option URL)
  | Unavailable (url : Option URL)
deriving DecidableEq, Repr

/-- The effect of one call on the registry. -/
def applyRegOp {σ : Type} (core : MotanCore) (zk : ZkConn σ) (fuel : Nat) (z : ZkRegistry σ) :
    RegOp → Option (ZkRegistry σ)
  | RegOp.Register url => Register core zk fuel z url
  | RegOp.UnRegister url => some (UnRegister core zk z url)
  | RegOp.Available url => Available core zk fuel z url
  | RegOp.Unavailable url => Unavailable core zk fuel z url

/-- The effect of a sequence of calls, first call first. -/
def runRegOps {σ : Type} (core : MotanCore) (zk : ZkConn σ) (fuel : Nat) :
    List RegOp → ZkRegistry σ → Option (ZkRegistry σ)
  | [], z => some z
  | op :: ops, z =>
    match applyRegOp core zk fuel z op with
    | none => none
    | some z1 => runRegOps core zk fuel ops z1

/-- Every identity of the available service map is an identity of the
registered service map. -/
def availableWithinRegistered {σ : Type} (z : ZkRegistry σ) : Prop :=
  ∀ id ∈ GoMap.keys z.availableServiceMap, id ∈ GoMap.keys z.registeredServiceMap

/-- Every key of the registered map is the identity of the URL stored under
it. -/
def registeredKeysAreIdentities {σ : Type} (core : MotanCore) (z : ZkRegistry σ) : Prop :=
  ∀ p ∈ z.registeredServiceMap, p.1 = core.GetIdentity p.2

/-- The calls that keep the available set within the registered set:
`Available(u)` for a `u` that is registered, `UnRegister(u)` for a `u` that is
not available, and every `Register`, `Available(nil)` and `Unavailable`. -/
def regOpAdmissible {σ : Type} (core : MotanCore) (z : ZkRegistry σ) : RegOp → Bool
  | RegOp.Available (some u) => decide (core.GetIdentity u ∈ GoMap.keys z.registeredServiceMap)
  | RegOp.UnRegister u => decide (core.GetIdentity u ∉ GoMap.keys z.availableServiceMap)
  | _ => true

/-- Every call of the sequence is admissible in the state it is made in. -/
def opsAdmissible {σ : Type} (core : MotanCore) (zk : ZkConn σ) (fuel : Nat) :
    List RegOp → ZkRegistry σ → Bool
  | [], _ => true
  | op :: ops, z =>
    regOpAdmissible core z op &&
      match applyRegOp core zk fuel z op with
      | none => true
      | some z1 => opsAdmissible core zk fuel ops z1

/-- The call is a `Register` or an `UnRegister`. -/
def RegOp.isRegistration : RegOp → Bool
  | RegOp.Register _ => true
  | RegOp.UnRegister _ => true
  | _ => false

/-- The call unregisters the identity. -/
def RegOp.unregisters (core : MotanCore) (id : String) : RegOp → Bool
  | RegOp.UnRegister u => decide (core.GetIdentity u = id)
  | _ => false

/-- The words of the specification: the identity was registered by some call
of the sequence and not unregistered by a later call. -/
def registeredAndNotUnregistered (core : MotanCore) (id : String) : List RegOp → Bool
  | [] => false
  | RegOp.Register u :: rest =>
    (decide (core.GetIdentity u = id) && !(rest.any (RegOp.unregisters core id)))
      || registeredAndNotUnregistered core id rest
  | _ :: rest => registeredAndNotUnregistered core id rest

/-- The store answers every `Exists`, `Delete` and `Create` call without
error and faithfully: after `Delete` the path does not exist, after `Create`
it exists, and the existence of every other path is unchanged. -/
structure FaithfulStore {σ : Type} (zk : ZkConn σ) : Prop where
  exists_ok : ∀ s path, ∃ r, zk.Exists s path = Except.ok r
  delete_ok : ∀ s path version, ∃ s1, zk.Delete s path version = Except.ok s1
    ∧ ∀ q, nodeExists zk s1 q = (!decide (q = path) && nodeExists zk s q)
  create_ok : ∀ s path data flags, ∃ s1, zk.Create s path data flags = Except.ok s1
    ∧ ∀ q, nodeExists zk s1 q = (decide (q = path) || nodeExists zk s q)

/-- A second URL for the examples, with another port. -/
def testURL2 : URL :=
  { Protocol := "zookeeper"
    Group := "zkTestGroup"
    Path := "zkTestPath"
    Host := "127.0.0.1"
    Port := 1235
    Parameters := [] }

/-! ## A store that never fails -/

/-- A store that keeps the set of existing paths: `Exists` tells whether the
path is kept, `Delete` forgets it, `Create` keeps it, and no call fails. -/
def idealConn : ZkConn (List String) where
  Exists := fun s path => Except.ok (decide (path ∈ s), 0)
  Delete := fun s path _ => Except.ok (s.filter (fun q => !decide (q = path)))
  Create := fun s path _ _ => Except.ok (path :: s)
  ChildrenW := fun s path =>
    Except.ok ((s.filter (fun q => decide (parentPath q = path))).map
      (fun q => String.mk (((q.toList.splitOn '/').getLastD []))))

/-- An identity key in the style of package `core`, for the examples. -/
def exampleCore : MotanCore where
  GetIdentity := fun u => u.Protocol ++ "://" ++ u.GetAddressStr ++ "/" ++ u.Path ++ "?group=" ++ u.Group
  ToExtInfo := fun u => u.Protocol ++ "://" ++ u.GetAddressStr ++ "/" ++ u.Path
  GetLocalIP := "127.0.0.1"

/-- The URL of the repository's registry tests. -/
def testURL : URL :=
  { Protocol := "zookeeper"
    Group := "zkTestGroup"
    Path := "zkTestPath"
    Host := "127.0.0.1"
    Port := 1234
    Parameters := [("application", "zkTestApp")] }

/-! # HTTP provider (`provider/httpProvider.go`)

Conventions of the embedding.

* The standard library and the collaborators of the provider are the record
  `ProviderEnv`: `fmt.Sprintf` with one string operand, `url.QueryEscape`, the
  deserialize hook, the location matcher, the two HTTP clients, and the
  constants of package `core` that the provider reads.
* A Go panic is `Except.error` with the message of the panic; a function that
  can panic returns `Except String _`.
* An `interface{}` argument is a `GoValue`.
* `strings.Count` and `strings.Replace` are needed for the two-byte ASCII
  patterns `%s` and `M_` only; they work on the characters of the string.
-/

/-! ## Strings -/

/-- The call `strings.Count(s, old)` for a pattern `old` of the two characters
`a` and `b`: the number of non-overlapping occurrences. -/
def countPair (a b : Char) : List Char → Nat
  | [] => 0
  | [_] => 0
  | c :: d :: rest =>
    if c = a ∧ d = b then countPair a b rest + 1 else countPair a b (d :: rest)

/-- The call `strings.Replace(s, old, new, -1)` for a pattern `old` of the two
characters `a` and `b`: every non-overlapping occurrence, from the left, is
replaced. -/
def replacePair (a b : Char) (new : List Char) : List Char → List Char
  | [] => []
  | [c] => [c]
  | c :: d :: rest =>
    if c = a ∧ d = b then new ++ replacePair a b new rest
    else c :: replacePair a b new (d :: rest)

/-- The call `strings.Count(s, "%s")`. -/
def countPlaceholders (s : String) : Nat :=
  countPair '%' 's' s.toList

/-- The scan of `fmt.Sprintf` over a format, with the operands not yet used,
for formats in which every `%` is followed by `%` or by `s`: `%%` writes a
percent sign, `%s` writes the next operand, or `%!s(MISSING)` when there is
none.  A `%` followed by another character is copied as it stands, which is
not what `fmt` does: the model is not to be used on such a format.  The
result is the text written and the operands left over. -/
def sprintfScan : List Char → List String → List Char × List String
  | [], args => ([], args)
  | [c], args => if c = '%' then ("%!(NOVERB)".toList, args) else ([c], args)
  | c :: d :: rest, args =>
    if c = '%' then
      if d = '%' then
        ('%' :: (sprintfScan rest args).1, (sprintfScan rest args).2)
      else if d = 's' then
        match args with
        | [] => ("%!s(MISSING)".toList ++ (sprintfScan rest []).1, (sprintfScan rest []).2)
        | arg :: more =>
          (arg.toList ++ (sprintfScan rest more).1, (sprintfScan rest more).2)
      else
        (c :: (sprintfScan (d :: rest) args).1, (sprintfScan (d :: rest) args).2)
    else
      (c :: (sprintfScan (d :: rest) args).1, (sprintfScan (d :: rest) args).2)

/-- The call `fmt.Sprintf(format, arg)` with one string operand, for the
formats of `sprintfScan`: an operand that no verb used is reported at the end
as `%!(EXTRA string=arg)`. -/
def goSprintf (format : String) (arg : String) : String :=
  match sprintfScan format.toList [arg] with
  | (out, []) => String.mk out
  | (out, extra :: _) => String.mk out ++ "%!(EXTRA string=" ++ extra ++ ")"

/-- The call `strconv.ParseBool(s)` with the error dropped. -/
def parseBool (s : String) : Bool :=
  s = "1" ∨ s = "t" ∨ s = "T" ∨ s = "TRUE" ∨ s = "true" ∨ s = "True"

/-! ## Requests, responses and the provider -/

/-- A value held in an `interface{}`: the nil interface, a `string`, a
`map[string]string` that was made (with its entries), the nil
`map[string]string`, or a value of any other type. -/
inductive GoValue where
  | nil
  | string (s : String)
  | mapStringString (m : GoMap String String)
  | nilMapStringString
  | other
deriving DecidableEq, Repr

/-- What the provider reads of a `motan.Request`: the method name, the request
id (a `uint64`), the arguments array (`none` for a nil slice) and the
attachments. -/
structure MotanRequest where
  Method : String
  RequestID : Nat
  Arguments : Option (List GoValue)
  Attachment : GoMap String String
deriving DecidableEq, Repr

/-- The type `motan.Exception`. -/
structure Exception where
  ErrCode : Int
  ErrMsg : String
  ErrType : Int
deriving DecidableEq, Repr

/-- The `Value` of a response: unset, the body text of rewrite mode, or the
header bytes and body bytes of proxy mode. -/
inductive ResponseValue where
  | unset
  | text (body : String)
  | raw (header body : List UInt8)
deriving DecidableEq, Repr

/-- The fields of `motan.MotanResponse` that `Call` writes. -/
structure MotanResponse where
  RequestID : Nat
  Value : ResponseValue
  Exception : Option Exception
  ProcessTime : Int
  Attachment : GoMap String String
deriving DecidableEq, Repr

/-- The fields of `HTTPProvider` that a call reads. -/
structure HTTPProvider where
  url : URL
  srvURLMap : GoMap String (GoMap String (GoMap String String))
  mixVars : Option (List String)
  proxySchema : String

/-- The constant `DefaultMotanMethodConfKey`. -/
def DefaultMotanMethodConfKey : String := "http_default_motan_method"

/-- The constant `DefaultMotanHTTPMethod`. -/
def DefaultMotanHTTPMethod : String := "GET"

/-- The constant `MotanRequestHTTPMethodKey`. -/
def MotanRequestHTTPMethodKey : String := "HTTP_Method"

/-- The constant `http.StatusServiceUnavailable`. -/
def StatusServiceUnavailable : Int := 503

/-- The index expression `m[k]` on a `map[string]string`: the empty string
when the key is absent. -/
def mapIndex (m : GoMap String String) (k : String) : String :=
  (GoMap.get? m k).getD ""

/-- The request that the fasthttp client of proxy mode is given: the raw header
bytes it was read from, the scheme and path set on its URI, the
`x-forwarded-for` header and the body (its `Connection` header is deleted). -/
structure ProxyRequest where
  headerBytes : List UInt8
  scheme : String
  path : String
  forwardedFor : String
  body : List UInt8
deriving DecidableEq, Repr

/-- A call on the header of the outbound request. -/
inductive HeaderOp where
  | set (name value : String)
  | add (name value : String)
deriving DecidableEq, Repr

/-- The request of rewrite mode: the arguments of `http.NewRequest` and the
calls made on its header, in order. -/
structure OutboundRequest where
  method : String
  url : String
  body : Option String
  header : List HeaderOp
deriving DecidableEq, Repr

/-- What `Call` reads of the `http.Response`: the status code, the headers
with the first value of each, the bytes read from the body as a string and the
error of `ioutil.ReadAll`. -/
structure HttpResponse where
  statusCode : Int
  header : List (String × String)
  body : String
  readErr : Option String
deriving DecidableEq, Repr

/-- The standard library and the collaborators of the provider.
`deserialize request proxy` is `request.ProcessDeserializable`: its error, or
the arguments it leaves in the request with the header and body bytes it
fills in proxy mode.  `pick` is `locationMatcher.Pick(method, true)`, `none`
for no match.  `proxyDo` is the call of the fasthttp client with the
serialisation of the response header, `httpDo` the call of the `http.Client`.
`newRequestErr` is the error of `http.NewRequest`, `parseQueryEncode` is
`url.ParseQuery` followed by `Encode`, `elapsed` the milliseconds since the
start of the call. -/
structure ProviderEnv where
  URLConfKey : String
  RemoteIPKey : String
  HostKey : String
  Sprintf : String → String → String
  QueryEscape : String → String
  deserialize : MotanRequest → Bool →
    Except String (Option (List GoValue) × List UInt8 × List UInt8)
  pick : String → Option (String × String)
  proxyDo : ProxyRequest → Except String (List UInt8 × List UInt8)
  newRequestErr : String → String → Option String
  parseQueryEncode : String → String
  httpDo : OutboundRequest → Except String HttpResponse
  elapsed : Int

/-! ## URL and method resolution -/

/-- The first part of `buildReqURL`, up to the test of the `HTTP_Method`
attachment: the URL template and the HTTP method it has selected. -/
def buildReqURLSelect (env : ProviderEnv) (request : MotanRequest) (h : HTTPProvider) :
    String × String :=
  let method := request.Method
  let httpReqURLFmt := mapIndex h.url.Parameters "URL_FORMAT"
  let httpReqMethod :=
    match GoMap.get? h.url.Parameters "HTTP_REQUEST_METHOD" with
    | some getHTTPReqMethod => getHTTPReqMethod
    | none => DefaultMotanHTTPMethod
  let selected :=
    match GoMap.get? h.srvURLMap (mapIndex h.url.Parameters env.URLConfKey) with
    | some srvConf =>
      let specificConf :=
        match GoMap.get? srvConf method with
        | some getSpecificConf => getSpecificConf
        | none =>
          match GoMap.get? srvConf DefaultMotanMethodConfKey with
          | some getSpecificConf => getSpecificConf
          | none => []
      ((match GoMap.get? specificConf "URL_FORMAT" with
        | some getHTTPReqURL => getHTTPReqURL
        | none => httpReqURLFmt),
       (match GoMap.get? specificConf "HTTP_REQUEST_METHOD" with
        | some getHTTPReqMethod => getHTTPReqMethod
        | none => httpReqMethod))
    | none => (httpReqURLFmt, httpReqMethod)
  match GoMap.get? request.Attachment MotanRequestHTTPMethodKey with
  | some motanRequestHTTPMethod => (selected.1, motanRequestHTTPMethod)
  | none => selected

/-- The function `buildReqURL`: the URL, the HTTP method and the message of
the error (`none` for a nil error). -/
def buildReqURL (env : ProviderEnv) (request : MotanRequest) (h : HTTPProvider) :
    String × String × Option String :=
  let httpReqURLFmt := (buildReqURLSelect env request h).1
  let httpReqMethod := (buildReqURLSelect env request h).2
  let count := countPlaceholders httpReqURLFmt
  if count > 0 then
    if count > 1 then
      ("", httpReqMethod, some ("Get err URL_FORMAT: " ++ httpReqURLFmt))
    else
      (env.Sprintf httpReqURLFmt request.Method, httpReqMethod, none)
  else
    (httpReqURLFmt, httpReqMethod, none)

/-! ## Query string -/

/-- The loop of `buildQueryStr` over the mixVars still to visit: a mixVar that
is not a key of `params` and is in the attachments is stored in `params`,
which panics when `params` is the nil map (`none`). -/
def mixInto (attachment : GoMap String String) :
    List String → Option (GoMap String String) → Except String (Option (GoMap String String))
  | [], params => Except.ok params
  | k :: rest, params =>
    match GoMap.get? (params.getD []) k with
    | some _ => mixInto attachment rest params
    | none =>
      match GoMap.get? attachment k with
      | none => mixInto attachment rest params
      | some value =>
        match params with
        | none => Except.error "assignment to entry in nil map"
        | some m => mixInto attachment rest (some (GoMap.set m k value))

/-- The segment `&k=QueryEscape(v)` that `buildQueryStr` writes for an entry
of the map. -/
def querySegment (env : ProviderEnv) (entry : String × String) : String :=
  "&" ++ entry.1 ++ "=" ++ env.QueryEscape entry.2

/-- The function `buildQueryStr`: the string it returns (its error result is
always nil), or the panic it raises.  The map argument is changed in place;
the changed map is not part of the result. -/
def buildQueryStr (env : ProviderEnv) (request : MotanRequest) (mixVars : Option (List String)) :
    Except String String :=
  match request.Arguments with
  | none => Except.ok ""
  | some [] => Except.ok ""
  | some (first :: _) =>
    let head := "requestIdFromClient=" ++ toString request.RequestID
    match first with
    | GoValue.nil => Except.error "reflect: call of reflect.Value.Type on zero Value"
    | GoValue.string s => Except.ok (head ++ env.QueryEscape s)
    | GoValue.mapStringString m =>
      match mixInto request.Attachment (mixVars.getD []) (some m) with
      | Except.error e => Except.error e
      | Except.ok params =>
        Except.ok (head ++ String.join ((params.getD []).map (querySegment env)))
    | GoValue.nilMapStringString =>
      match mixInto request.Attachment (mixVars.getD []) none with
      | Except.error e => Except.error e
      | Except.ok params =>
        Except.ok (head ++ String.join ((params.getD []).map (querySegment env)))
    | GoValue.other => Except.ok head

/-! ## The call -/

/-- The function `fillException`; `elapsed` is the process time it
computes. -/
def fillException (resp : MotanResponse) (elapsed : Int) (err : String) : MotanResponse :=
  { resp with
    ProcessTime := elapsed
    Exception := some
      { ErrCode := StatusServiceUnavailable, ErrMsg := err, ErrType := StatusServiceUnavailable } }

/-- The header name that the callback of `Call` makes of an attachment key:
`strings.Replace(k, "M_", "MOTAN-", -1)`. -/
def rewriteAttachmentKey (k : String) : String :=
  String.mk (replacePair 'M' '_' "MOTAN-".toList k.toList)

/-- The callback that `Call` ranges over the request attachments: the key is
rewritten and the pair is added to the header of the outbound request. -/
def attachmentHeaderOp (entry : String × String) : HeaderOp :=
  HeaderOp.add (rewriteAttachmentKey entry.1) entry.2

/-- The calls that `Call` makes on the header of the outbound request. -/
def outboundHeader (request : MotanRequest) (ip : String) : List HeaderOp :=
  [HeaderOp.set "Content-Type" "application/x-www-form-urlencoded"]
    ++ request.Attachment.map attachmentHeaderOp
    ++ [HeaderOp.add "x-forwarded-for" ip, HeaderOp.set "Accept-Encoding" ""]

/-- The values that a header holds under a name, `Header.Values`: no value
when the name is absent.  `canon` is `textproto.CanonicalMIMEHeaderKey`, which
names the entry of a header name in the `http.Header` map. -/
def headerValues (canon : String → String) (header : GoMap String (List String))
    (name : String) : List String :=
  (GoMap.get? header (canon name)).getD []

/-- A call on an `http.Header`: `Header.Set` puts the value alone under the
name, `Header.Add` appends it to the values under the name. -/
def applyHeaderOp (canon : String → String) (header : GoMap String (List String)) :
    HeaderOp → GoMap String (List String)
  | HeaderOp.set name value => GoMap.set header (canon name) [value]
  | HeaderOp.add name value =>
    GoMap.set header (canon name) (headerValues canon header name ++ [value])

/-- The header of the outbound request, `req.Header`, when `Call` hands the
request to the client: the calls of `outboundHeader`, made in order on the
empty header of `http.NewRequest`. -/
def requestHeader (canon : String → String) (request : MotanRequest) (ip : String) :
    GoMap String (List String) :=
  (outboundHeader request ip).foldl (applyHeaderOp canon) []

/-- The bytes that `textproto` accepts in a header name: letters, digits and
the punctuation of an HTTP token. -/
def validHeaderFieldByte (c : Char) : Bool :=
  c.isAlphanum
    || decide (c.toNat ∈ [33, 35, 36, 37, 38, 39, 42, 43, 45, 46, 94, 95, 96, 124, 126])

/-- The loop of `textproto.CanonicalMIMEHeaderKey` over the bytes still to
visit: a letter is put in upper case at the start and after a dash, and in
lower case elsewhere. -/
def canonicalCase : Bool → List Char → List Char
  | _, [] => []
  | upper, c :: cs =>
    let c1 := if upper = true then c.toUpper else c.toLower
    c1 :: canonicalCase (decide (c1 = '-')) cs

/-- The function `textproto.CanonicalMIMEHeaderKey`: a name with a byte that
is not accepted in a header name is left as it is. -/
def canonicalMIMEHeaderKey (s : String) : String :=
  if s.toList.all validHeaderFieldByte then String.mk (canonicalCase true s.toList) else s

/-- The response that `Call` starts from. -/
def newResponse : MotanResponse :=
  { RequestID := 0, Value := ResponseValue.unset, Exception := none, ProcessTime := 0,
    Attachment := [] }

/-- The rewrite-mode part of `Call`, from `buildReqURL` on; `request` is the
request after the deserialize hook and `resp` the response with its request
id set. -/
def callRewrite (env : ProviderEnv) (h : HTTPProvider) (request : MotanRequest)
    (resp : MotanResponse) (ip : String) : Except String MotanResponse :=
  match buildReqURL env request h with
  | (_, _, some err) => Except.ok (fillException resp env.elapsed err)
  | (httpReqURL, httpReqMethod, none) =>
    match buildQueryStr env request h.mixVars with
    | Except.error raised => Except.error raised
    | Except.ok queryStr =>
      let reqURL := if httpReqMethod = "GET" then httpReqURL ++ "?" ++ queryStr else httpReqURL
      let reqBody :=
        if httpReqMethod = "GET" then none
        else if httpReqMethod = "POST" then some (env.parseQueryEncode queryStr)
        else none
      match env.newRequestErr httpReqMethod reqURL with
      | some err => Except.ok (fillException resp env.elapsed err)
      | none =>
        match env.httpDo
            { method := httpReqMethod, url := reqURL, body := reqBody,
              header := outboundHeader request ip } with
        | Except.error err => Except.ok (fillException resp env.elapsed err)
        | Except.ok httpResp =>
          match httpResp.readErr with
          | some err =>
            Except.ok { resp with
              ProcessTime := env.elapsed
              Exception := some
                { ErrCode := httpResp.statusCode, ErrMsg := err,
                  ErrType := StatusServiceUnavailable } }
          | none =>
            Except.ok { resp with
              ProcessTime := env.elapsed
              Attachment :=
                httpResp.header.foldl (fun acc kv => GoMap.set acc kv.1 kv.2)
                  (request.Attachment.foldl (fun acc kv => GoMap.set acc kv.1 kv.2)
                    resp.Attachment)
              Value := ResponseValue.text httpResp.body }

/-- The method `HTTPProvider.Call`: the response it returns, or the panic
that leaves it. -/
def Call (env : ProviderEnv) (h : HTTPProvider) (request : MotanRequest) :
    Except String MotanResponse :=
  let doTransparentProxy := parseBool (mapIndex request.Attachment "HTTP_PROXY")
  match env.deserialize request doTransparentProxy with
  | Except.error err => Except.ok (fillException newResponse env.elapsed err)
  | Except.ok (arguments, headerBytes, bodyBytes) =>
    let request1 := { request with Arguments := arguments }
    let resp := { newResponse with RequestID := request1.RequestID }
    let ip :=
      match GoMap.get? request1.Attachment env.RemoteIPKey with
      | some remoteIP => remoteIP
      | none => mapIndex request1.Attachment env.HostKey
    if doTransparentProxy = true then
      match env.pick request1.Method with
      | none => Except.ok (fillException resp env.elapsed "service not found")
      | some (upstream, rewritePath) =>
        if upstream ≠ h.url.Path then
          Except.ok (fillException resp env.elapsed "service not found")
        else
          match env.proxyDo
              { headerBytes := headerBytes, scheme := h.proxySchema, path := rewritePath,
                forwardedFor := ip, body := bodyBytes } with
          | Except.error err => Except.ok (fillException resp env.elapsed err)
          | Except.ok (headerOut, bodyOut) =>
            Except.ok { resp with Value := ResponseValue.raw headerOut bodyOut }
    else
      callRewrite env h request1 resp ip

/-! ## Children to URLs -/

/-- The value of a string of decimal digits read after `acc`; `none` when a
character is not a digit. -/
def decimalAcc : Nat → List Char → Option Nat
  | acc, [] => some acc
  | acc, c :: cs =>
    if '0' ≤ c ∧ c ≤ '9' then decimalAcc (acc * 10 + (c.toNat - '0'.toNat)) cs else none

/-- The digits of `strconv.Atoi`, after the sign: `none` for a syntax error
(no digit, or a character that is not a digit). -/
def decimalValue (ds : List Char) : Option Nat :=
  match ds with
  | [] => none
  | _ :: _ => decimalAcc 0 ds

/-- The value that `port, _ = strconv.Atoi(s)` assigns, for a 64-bit `int`:
0 on a syntax error, the nearest bound on a range error. -/
def atoi (s : String) : Int :=
  match s.toList with
  | [] => 0
  | c :: cs =>
    if c = '-' then
      match decimalValue cs with
      | none => 0
      | some n => if n > 2 ^ 63 then -(2 ^ 63 : Int) else -(n : Int)
    else if c = '+' then
      match decimalValue cs with
      | none => 0
      | some n => if n ≥ 2 ^ 63 then (2 ^ 63 - 1 : Int) else (n : Int)
    else
      match decimalValue (c :: cs) with
      | none => 0
      | some n => if n ≥ 2 ^ 63 then (2 ^ 63 - 1 : Int) else (n : Int)

/-- An environment for the examples: `Sprintf` is `goSprintf`, the escape
functions are the identity (the example values have nothing to escape), the
deserialize hook succeeds and leaves the arguments, and no upstream answers. -/
def exampleEnv : ProviderEnv where
  URLConfKey := "conf-id"
  RemoteIPKey := "remoteIP"
  HostKey := "host"
  Sprintf := goSprintf
  QueryEscape := fun s => s
  deserialize := fun request _ => Except.ok (request.Arguments, [], [])
  pick := fun _ => none
  proxyDo := fun _ => Except.error "no upstream"
  newRequestErr := fun _ _ => none
  parseQueryEncode := fun s => s
  httpDo := fun _ => Except.error "connection refused"
  elapsed := 0

/-- The environment of the examples with a deserialize hook that fails. -/
def failingDeserializeEnv : ProviderEnv :=
  { exampleEnv with deserialize := fun _ _ => Except.error "deserialize failed" }

/-- A provider whose URL has the template `https://h/%s` and no external
configuration. -/
def exampleProvider : HTTPProvider where
  url :=
    { Protocol := "http", Host := "127.0.0.1", Port := 8080, Path := "svc", Group := "g",
      Parameters := [("URL_FORMAT", "https://h/%s")] }
  srvURLMap := []
  mixVars := some ["traceId"]
  proxySchema := "http"

/-- A request with the given arguments and attachments, method `foo` and
request id 7. -/
def exampleRequest (arguments : Option (List GoValue)) (attachment : GoMap String String) :
    MotanRequest :=
  { Method := "foo", RequestID := 7, Arguments := arguments, Attachment := attachment }

/-! ## The resolution as the specification words it -/

/-- The law of `fmt.Sprintf` that the resolution of a URL template relies on:
in a format with the single verb `%s` and no other percent sign, the verb is
replaced by the operand. -/
def SprintfSubstitutes (sprintf : String → String → String) : Prop :=
  ∀ pre post arg : String, '%' ∉ pre.toList → '%' ∉ post.toList →
    sprintf (pre ++ "%s" ++ post) arg = pre ++ arg ++ post

/-- The words of the specification: the external configuration used for a
request is, when the section named by the provider's `URLConfKey` exists, the
entry of the request's motan method, else the `http_default_motan_method`
entry; there is none when no section matches or the section has neither. -/
def selectedConf (env : ProviderEnv) (request : MotanRequest) (h : HTTPProvider) :
    Option (GoMap String String) :=
  match GoMap.get? h.srvURLMap (mapIndex h.url.Parameters env.URLConfKey) with
  | none => none
  | some srvConf =>
    match GoMap.get? srvConf request.Method with
    | some conf => some conf
    | none => GoMap.get? srvConf DefaultMotanMethodConfKey

/-- The words of the specification: the URL template is the `URL_FORMAT` of
the external configuration used, if there is one and it has the option, and
otherwise the `URL_FORMAT` of the provider URL. -/
def selectedTemplate (env : ProviderEnv) (request : MotanRequest) (h : HTTPProvider) : String :=
  match (selectedConf env request h).bind (fun conf => GoMap.get? conf "URL_FORMAT") with
  | some template => template
  | none => mapIndex h.url.Parameters "URL_FORMAT"

/-- The words of the specification: the HTTP method is the `HTTP_Method`
attachment if set, else the `HTTP_REQUEST_METHOD` of the external
configuration used if it has one, else the `HTTP_REQUEST_METHOD` parameter of
the provider URL if present, else `GET`. -/
def layeredHTTPMethod (env : ProviderEnv) (request : MotanRequest) (h : HTTPProvider) : String :=
  match GoMap.get? request.Attachment "HTTP_Method" with
  | some m => m
  | none =>
    match (selectedConf env request h).bind (fun conf => GoMap.get? conf "HTTP_REQUEST_METHOD") with
    | some m => m
    | none =>
      match GoMap.get? h.url.Parameters "HTTP_REQUEST_METHOD" with
      | some m => m
      | none => "GET"

/-- The words of the specification: the template with its occurrence of `%s`
replaced by the method name. -/
def substituteMethod (template method : String) : String :=
  String.mk (replacePair '%' 's' method.toList template.toList)

/-- A provider whose template has an escaped percent sign before the verb. -/
def escapedPercentProvider : HTTPProvider where
  url :=
    { Protocol := "http", Host := "127.0.0.1", Port := 8080, Path := "svc", Group := "g",
      Parameters := [("URL_FORMAT", "https://h/a%%b/%s")] }
  srvURLMap := []
  mixVars := none
  proxySchema := "http"

/-- A provider with an external configuration: the section `svc-conf` has an
entry for the method `foo` without `URL_FORMAT`, and a default entry. -/
def configuredProvider : HTTPProvider where
  url :=
    { Protocol := "http", Host := "127.0.0.1", Port := 8080, Path := "svc", Group := "g",
      Parameters :=
        [("URL_FORMAT", "https://h/%s"), ("HTTP_REQUEST_METHOD", "PUT"),
          ("conf-id", "svc-conf")] }
  srvURLMap :=
    [("svc-conf",
      [("foo", [("HTTP_REQUEST_METHOD", "POST")]),
        ("http_default_motan_method",
          [("URL_FORMAT", "https://default/%s"), ("HTTP_REQUEST_METHOD", "DELETE")])])]
  mixVars := none
  proxySchema := "http"

/-- The words of the specification: the value of key `k` in the effective
map, which is the argument map extended, for each mixVar that is not one of
its keys and is in the attachments, with the attachment value. -/
def effectiveParam (m attachment : GoMap String String) (mixVars : List String) (k : String) :
    Option String :=
  match GoMap.get? m k with
  | some v => some v
  | none => if k ∈ mixVars then GoMap.get? attachment k else none

/-- The words of the specification: the header name is the attachment key with
a prefix `M_` rewritten to `MOTAN-`. -/
def prefixRewrite (k : String) : String :=
  match k.toList with
  | 'M' :: '_' :: rest => "MOTAN-" ++ String.mk rest
  | _ => k

/-! ## Children to URLs as the specification words it -/

/-- The root node of the store. -/
def zkRoot : String := "/"

/-- The parent of a node in the tree of the store: the path before the last
separator, and the root for a node directly under the root. -/
def nodeParent (path : String) : String :=
  if parentPath path = "" then zkRoot else parentPath path

/-- The store creates nodes by the parent rule: `Create` reports an error
other than `ErrNoNode` when the node exists, reports `ErrNoNode` when the
parent of the node is missing, and succeeds when the parent exists and the
node does not, after which the node exists and the existence of every other
path is unchanged. -/
structure TreeStore {σ : Type} (zk : ZkConn σ) : Prop where
  create_exists : ∀ s path data flags, nodeExists zk s path = true →
    ∃ err, zk.Create s path data flags = Except.error err ∧ err ≠ ZkErr.ErrNoNode
  create_noNode : ∀ s path data flags, nodeExists zk s (nodeParent path) = false →
    zk.Create s path data flags = Except.error ZkErr.ErrNoNode
  create_ok : ∀ s path data flags, nodeExists zk s path = false →
    nodeExists zk s (nodeParent path) = true →
    ∃ s1, zk.Create s path data flags = Except.ok s1
      ∧ ∀ q, nodeExists zk s1 q = (decide (q = path) || nodeExists zk s q)

/-- The absolute path `/c1/.../cn` with the components `c1`, ..., `cn`. -/
def absPath : List String → String
  | [] => ""
  | c :: cs => "/" ++ c ++ absPath cs

/-- The path `/c1/.../cn` and its ancestors below the root: `/c1`,
`/c1/c2`, ..., `/c1/.../cn`. -/
def pathPrefixes (cs : List String) : List String :=
  (List.range cs.length).map (fun k => absPath (cs.take (k + 1)))

/-- The nodes below the root of a tree: the parent of every node is the root
or one of the nodes. -/
abbrev TreeNodes : Type :=
  { s : List String // ∀ q ∈ s, nodeParent q = zkRoot ∨ nodeParent q ∈ s }

/-- The tree with the root only. -/
def emptyTree : TreeNodes := ⟨[], fun _ h => nomatch h⟩

/-- A store that keeps the nodes of a tree. The root always exists; `Create`
follows the parent rule; `Delete` refuses the root and a node with
children. -/
def treeConn : ZkConn TreeNodes where
  Exists := fun s path => Except.ok (decide (path = zkRoot ∨ path ∈ s.1), 0)
  Delete := fun s path _ =>
    if path = zkRoot then Except.error ZkErr.ErrOther
    else if path ∉ s.1 then Except.error ZkErr.ErrNoNode
    else if h : ∃ q ∈ s.1, nodeParent q = path then Except.error ZkErr.ErrOther
    else
      Except.ok ⟨s.1.filter (fun q => !decide (q = path)), by
        intro q hq
        rcases s.2 q (List.mem_filter.1 hq).1 with h1 | h1
        · exact Or.inl h1
        · have h2 : nodeParent q ≠ path := fun h2 => h ⟨q, (List.mem_filter.1 hq).1, h2⟩
          exact Or.inr (List.mem_filter.2 ⟨h1, by simpa using h2⟩)⟩
  Create := fun s path _ _ =>
    if h : nodeParent path = zkRoot ∨ nodeParent path ∈ s.1 then
      if path = zkRoot ∨ path ∈ s.1 then Except.error ZkErr.ErrNodeExists
      else
        Except.ok ⟨path :: s.1, by
          intro q hq
          rcases List.mem_cons.1 hq with h1 | h1
          · subst h1
            exact h.imp id (List.mem_cons_of_mem _)
          · exact (s.2 q h1).imp id (List.mem_cons_of_mem _)⟩
    else Except.error ZkErr.ErrNoNode
  ChildrenW := fun s path =>
    if path = zkRoot ∨ path ∈ s.1 then
      Except.ok ((s.1.filter (fun q => decide (nodeParent q = path))).map
        (fun q => String.mk ((q.toList.splitOn '/').getLastD [])))
    else Except.error ZkErr.ErrNoNode

/-- The components of the type path of a server node of the test URL. -/
def testTypePathComponents : List String :=
  ["motan", "zkTestGroup", "zkTestPath", "server"]

/-! ## Go maps -/

theorem GoMap.mem_keys_delete {κ ν : Type} [DecidableEq κ] (m : GoMap κ ν) (k k' : κ) :
    k' ∈ GoMap.keys (GoMap.delete m k) ↔ k' ∈ GoMap.keys m ∧ k' ≠ k := by
  simp only [GoMap.keys, GoMap.delete, List.mem_map, List.mem_filter, Bool.not_eq_true',
    decide_eq_false_iff_not]
  constructor
  · rintro ⟨p, ⟨hp, hne⟩, rfl⟩
    exact ⟨⟨p, hp, rfl⟩, hne⟩
  · rintro ⟨⟨p, hp, rfl⟩, hne⟩
    exact ⟨p, ⟨hp, hne⟩, rfl⟩

theorem GoMap.mem_keys_set {κ ν : Type} [DecidableEq κ] (m : GoMap κ ν) (k k' : κ) (v : ν) :
    k' ∈ GoMap.keys (GoMap.set m k v) ↔ k' = k ∨ k' ∈ GoMap.keys m := by
  have h := GoMap.mem_keys_delete m k k'
  simp only [GoMap.keys] at h
  simp only [GoMap.set, GoMap.keys, List.map_cons, List.mem_cons, h]
  by_cases hk : k' = k <;> simp [hk]

theorem GoMap.mem_delete {κ ν : Type} [DecidableEq κ] (m : GoMap κ ν) (k : κ) (p : κ × ν) :
    p ∈ GoMap.delete m k ↔ p ∈ m ∧ p.1 ≠ k := by
  simp [GoMap.delete]

theorem GoMap.mem_set {κ ν : Type} [DecidableEq κ] (m : GoMap κ ν) (k : κ) (v : ν) (p : κ × ν) :
    p ∈ GoMap.set m k v ↔ p = (k, v) ∨ (p ∈ m ∧ p.1 ≠ k) := by
  simp [GoMap.set, GoMap.mem_delete]

theorem GoMap.nodup_keys_delete {κ ν : Type} [DecidableEq κ] (m : GoMap κ ν) (k : κ)
    (h : (GoMap.keys m).Nodup) : (GoMap.keys (GoMap.delete m k)).Nodup := by
  unfold GoMap.keys GoMap.delete
  exact List.Nodup.sublist (List.Sublist.map _ (List.filter_sublist _)) h

theorem GoMap.nodup_keys_set {κ ν : Type} [DecidableEq κ] (m : GoMap κ ν) (k : κ) (v : ν)
    (h : (GoMap.keys m).Nodup) : (GoMap.keys (GoMap.set m k v)).Nodup := by
  have h1 := GoMap.nodup_keys_delete m k h
  have h2 : k ∉ GoMap.keys (GoMap.delete m k) := by
    rw [GoMap.mem_keys_delete]; simp
  simp only [GoMap.set, GoMap.keys, List.map_cons] at *
  exact List.nodup_cons.mpr ⟨h2, h1⟩

theorem GoMap.get?_eq_none_iff {κ ν : Type} [DecidableEq κ] (m : GoMap κ ν) (k : κ) :
    GoMap.get? m k = none ↔ k ∉ GoMap.keys m := by
  induction m with
  | nil => simp [GoMap.get?, GoMap.keys]
  | cons p rest ih =>
    obtain ⟨k', v⟩ := p
    simp only [GoMap.keys, List.map_cons, List.mem_cons] at ih ⊢
    by_cases hk : k' = k
    · simp [GoMap.get?, hk]
    · have hk' : ¬ k = k' := fun h => hk h.symm
      simp [GoMap.get?, hk, hk', ih]

theorem GoMap.get?_set_self {κ ν : Type} [DecidableEq κ] (m : GoMap κ ν) (k : κ) (v : ν) :
    GoMap.get? (GoMap.set m k v) k = some v := by
  simp [GoMap.set, GoMap.get?]

theorem GoMap.get?_delete_self {κ ν : Type} [DecidableEq κ] (m : GoMap κ ν) (k : κ) :
    GoMap.get? (GoMap.delete m k) k = none := by
  rw [GoMap.get?_eq_none_iff, GoMap.mem_keys_delete]
  simp

theorem GoMap.get?_delete_ne {κ ν : Type} [DecidableEq κ] (m : GoMap κ ν) (k k' : κ)
    (h : k' ≠ k) : GoMap.get? (GoMap.delete m k) k' = GoMap.get? m k' := by
  induction m with
  | nil => rfl
  | cons p rest ih =>
    obtain ⟨k1, v⟩ := p
    unfold GoMap.delete at ih ⊢
    by_cases h1 : k1 = k
    · subst h1
      have : ¬ k1 = k' := fun e => h e.symm
      simp [List.filter_cons, GoMap.get?, this, ih]
    · by_cases h2 : k1 = k'
      · subst h2
        simp [List.filter_cons, GoMap.get?, h1]
      · simp [List.filter_cons, GoMap.get?, h1, h2, ih]

theorem GoMap.get?_set_ne {κ ν : Type} [DecidableEq κ] (m : GoMap κ ν) (k k' : κ) (v : ν)
    (h : k' ≠ k) : GoMap.get? (GoMap.set m k v) k' = GoMap.get? m k' := by
  have : ¬ k = k' := fun e => h e.symm
  simp [GoMap.set, GoMap.get?, this, GoMap.get?_delete_ne m k k' h]

/-! ## Path encoders: the documented layout -/

/-- C7: the path encoders produce the documented layout: `toNodePath` is
`/motan/<group>/<path>/<type>/<host:port>`, `toCommandPath` is
`/motan/<group>/command`, `toAgentNodePath` is
`/motan/agent/<application>/node/<host:port>` and `toAgentCommandPath` is
`/motan/agent/<application>/command`, where the application is the URL's
`application` parameter (empty when absent) and `host:port` is
`GetAddressStr`. -/
theorem path_encoders_layout (u : URL) (t : String) :
    toNodePath u t
        = "/motan/" ++ u.Group ++ "/" ++ u.Path ++ "/" ++ t ++ "/" ++ u.GetAddressStr
      ∧ toCommandPath u = "/motan/" ++ u.Group ++ "/command"
      ∧ toAgentNodePath u
        = "/motan/agent/" ++ u.GetParam "application" "" ++ "/node/" ++ u.GetAddressStr
      ∧ toAgentCommandPath u = "/motan/agent/" ++ u.GetParam "application" "" ++ "/command"
      ∧ u.GetParam "application" "" = (GoMap.get? u.Parameters "application").getD "" := by
  refine ⟨?_, ?_, ?_, ?_, ?_⟩
  · simp only [toNodePath, toNodeTypePath, toServicePath, toGroupPath, zkRegistryNamespace,
      zkPathSeparator, String.append_assoc]
    rfl
  · simp only [toCommandPath, toGroupPath, zkRegistryNamespace, zkPathSeparator,
      zkRegistryCommand, String.append_assoc]
    rfl
  · simp only [toAgentNodePath, toAgentNodeTypePath, toAgentPath, zkRegistryNamespace,
      zkPathSeparator, zkNodeTypeAgent, zkRegistryNode, ApplicationKey, String.append_assoc]
    rfl
  · simp only [toAgentCommandPath, toAgentPath, zkRegistryNamespace, zkPathSeparator,
      zkNodeTypeAgent, zkRegistryCommand, ApplicationKey, String.append_assoc]
    rfl
  · unfold URL.GetParam
    cases GoMap.get? u.Parameters "application" <;> rfl

/-! ## Node-info codec -/

set_option maxRecDepth 100000 in
theorem lead2_ne_magic (x : UInt8) : (x &&& 31 ||| 192) ≠ 172 := by
  obtain ⟨⟨f⟩⟩ := x
  revert f
  decide

set_option maxRecDepth 100000 in
theorem lead3_ne_magic (x : UInt8) : (x &&& 15 ||| 224) ≠ 172 := by
  obtain ⟨⟨f⟩⟩ := x
  revert f
  decide

set_option maxRecDepth 100000 in
theorem lead4_ne_magic (x : UInt8) : (x &&& 7 ||| 240) ≠ 172 := by
  obtain ⟨⟨f⟩⟩ := x
  revert f
  decide

theorem ascii_ne_magic (c : Char) (h : c.val ≤ 127) : c.val.toUInt8 ≠ 172 := by
  have h1 : c.val.toNat ≤ 127 := h
  intro h2
  have h3 := congrArg UInt8.toNat h2
  simp [UInt32.toUInt8, UInt8.toNat, Nat.toUInt8, UInt8.ofNat] at h3
  omega

/-- The first byte of the UTF-8 encoding of a character is never `0xAC`. -/
theorem utf8EncodeChar_head (c : Char) :
    ∃ b rest, String.utf8EncodeChar c = b :: rest ∧ b ≠ 172 := by
  unfold String.utf8EncodeChar
  simp only
  split_ifs with h1 h2 h3
  · exact ⟨_, _, rfl, ascii_ne_magic c h1⟩
  · exact ⟨_, _, rfl, lead2_ne_magic _⟩
  · exact ⟨_, _, rfl, lead3_ne_magic _⟩
  · exact ⟨_, _, rfl, lead4_ne_magic _⟩

theorem utf8Bytes_head (s : String) : (utf8Bytes s).getD 0 0 ≠ 172 := by
  obtain ⟨cs⟩ := s
  cases cs with
  | nil => decide
  | cons c cs =>
    obtain ⟨b, rest, hb, hne⟩ := utf8EncodeChar_head c
    simp [utf8Bytes, String.toUTF8, hb, hne]

theorem uint8_toNat_lt (b : UInt8) : b.toNat < 256 := by
  obtain ⟨⟨f⟩⟩ := b
  exact f.isLt

/-- The magic test of `getNodeInfo` holds exactly for a first byte `0xAC` and
a second byte `0xED`. -/
theorem bigEndianUint16_magic (data : List UInt8) (h : bigEndianUint16 data = streamMagicTag) :
    data.getD 0 0 = 172 ∧ data.getD 1 0 = 237 := by
  unfold bigEndianUint16 streamMagicTag at h
  have h0 := uint8_toNat_lt (data.getD 0 0)
  have h1 := uint8_toNat_lt (data.getD 1 0)
  constructor
  · apply UInt8.ext
    show (data.getD 0 0).toNat = 172
    omega
  · apply UInt8.ext
    show (data.getD 1 0).toNat = 237
    omega

/-- C8: round trip on unframed payloads: for every text string `s`,
`getNodeInfo` applied to the UTF-8 bytes of `s` returns the bytes of `s`. -/
theorem getNodeInfo_text (s : String) : getNodeInfo (utf8Bytes s) = utf8Bytes s := by
  unfold getNodeInfo
  rw [if_neg]
  rintro ⟨_, h⟩
  exact utf8Bytes_head s (bigEndianUint16_magic _ h).1

/-- A short-string frame with a non-empty content decodes to the content. -/
theorem getNodeInfo_shortStringFrame (v1 v2 : UInt8) (content : List UInt8)
    (h : content ≠ []) : getNodeInfo (shortStringFrame v1 v2 content) = content := by
  have hlen : 0 < content.length := List.length_pos.mpr h
  unfold getNodeInfo
  have hm : bigEndianUint16 (shortStringFrame v1 v2 content) = streamMagicTag := by
    simp only [shortStringFrame, bigEndianUint16, List.cons_append, List.getD_cons_zero,
      List.getD_cons_succ]
    decide
  rw [if_pos, if_pos]
  · simp [shortStringFrame]
  · simp only [shortStringFrame, List.cons_append, List.getD_cons_zero, List.getD_cons_succ]
    rfl
  · refine ⟨?_, hm⟩
    simp only [shortStringFrame, List.length_append, List.length_cons, List.length_nil]
    omega

/-- C9: the short-string frame of the empty string (`0xAC 0xED 0x00 0x05 0x74
0x00 0x00`) is returned whole by `getNodeInfo`, not decoded to the empty
string: the guard `len(data) > 7` leaves out the frame that is exactly as
long as its header. -/
theorem getNodeInfo_empty_short_frame :
    getNodeInfo (shortStringFrame 0x00 0x05 (utf8Bytes ""))
        = [0xAC, 0xED, 0x00, 0x05, 0x74, 0x00, 0x00]
      ∧ getNodeInfo (shortStringFrame 0x00 0x05 (utf8Bytes "")) ≠ utf8Bytes "" := by
  decide

/-- C10 as stated fails: a frame whose declared length differs from the
number of content bytes is still decoded, not returned verbatim. -/
theorem getNodeInfo_ignores_declared_length :
    ¬ ∀ data : List UInt8, notWellFormedFrame data → getNodeInfo data = data := by
  intro h
  have hbad : notWellFormedFrame lengthMismatchFrame := by
    unfold notWellFormedFrame declaredLengthDiffers
    right; right; right; left
    decide
  have hres : getNodeInfo lengthMismatchFrame = [0x61] := by decide
  have := h lengthMismatchFrame hbad
  rw [hres] at this
  revert this
  decide

/-- C10, amended: `getNodeInfo` returns the payload verbatim when it does not
start with `0xAC 0xED`, or its byte at offset 4 is neither `0x74` nor `0x7C`,
or it is too short to hold the frame header. -/
theorem getNodeInfo_verbatim (data : List UInt8)
    (h : ¬ startsWithMagic data ∨ tagIsNeither data ∨ tooShortForHeader data) :
    getNodeInfo data = data := by
  unfold getNodeInfo
  by_cases hc : data.length > 7 ∧ bigEndianUint16 data = streamMagicTag
  · rw [if_pos hc]
    obtain ⟨hlen, hmagic⟩ := hc
    obtain ⟨h0, h1⟩ := bigEndianUint16_magic data hmagic
    rcases data with _ | ⟨a, _ | ⟨b, _ | ⟨c, _ | ⟨d, _ | ⟨e, rest⟩⟩⟩⟩⟩ <;>
      simp only [List.length_nil, List.length_cons] at hlen <;> try omega
    simp only [List.getD_cons_zero, List.getD_cons_succ] at h0 h1 ⊢
    subst h0 h1
    rcases h with h | h | h
    · exact absurd (by simp [startsWithMagic]) h
    · obtain ⟨n1, n2⟩ := h
      have e1 : e ≠ shortStringTag := by
        intro he; apply n1; simp [he, shortStringTag]
      have e2 : e ≠ longStringTag := by
        intro he; apply n2; simp [he, longStringTag]
      rw [if_neg e1, if_neg (by tauto)]
    · rcases h with h | ⟨ht, hl⟩
      · simp only [List.length_cons] at h; omega
      · have e2 : e = 0x7C := by simpa using ht
        subst e2
        rw [if_neg (by decide), if_neg]
        simp only [List.length_cons] at hl ⊢
        omega
  · rw [if_neg hc]

theorem getNodeInfo_verbatim_witness :
    (¬ startsWithMagic [0xAC, 0xED, 0x00, 0x05, 0x7C, 0x00, 0x00, 0x00, 0x00]
        ∨ tagIsNeither [0xAC, 0xED, 0x00, 0x05, 0x7C, 0x00, 0x00, 0x00, 0x00]
        ∨ tooShortForHeader [0xAC, 0xED, 0x00, 0x05, 0x7C, 0x00, 0x00, 0x00, 0x00])
      ∧ getNodeInfo [0xAC, 0xED, 0x00, 0x05, 0x7C, 0x00, 0x00, 0x00, 0x00]
        = [0xAC, 0xED, 0x00, 0x05, 0x7C, 0x00, 0x00, 0x00, 0x00] :=
  ⟨Or.inr (Or.inr (Or.inr ⟨by decide, by decide⟩)),
    getNodeInfo_verbatim _ (Or.inr (Or.inr (Or.inr ⟨by decide, by decide⟩)))⟩

/-! ## Registration state -/

/-- What `Register` leaves behind when it returns. -/
theorem Register_eq_some {σ : Type} (core : MotanCore) (zk : ZkConn σ) (fuel : Nat)
    (z z1 : ZkRegistry σ) (u : URL) (h : Register core zk fuel z u = some z1) :
    z1.available = z.available ∧ z1.availableServiceMap = z.availableServiceMap
      ∧ z1.registeredServiceMap
        = if z.available = false then z.registeredServiceMap
          else if core.GetIdentity u ∈ GoMap.keys z.registeredServiceMap then
            z.registeredServiceMap
          else GoMap.set z.registeredServiceMap (core.GetIdentity u) u := by
  unfold Register at h
  by_cases ha : z.available = false
  · rw [if_pos ha] at h
    cases h
    simp [ha]
  · rw [if_neg ha] at h
    cases hg : GoMap.get? z.registeredServiceMap (core.GetIdentity u) with
    | some v =>
      rw [hg] at h
      cases h
      have hk : core.GetIdentity u ∈ GoMap.keys z.registeredServiceMap := by
        by_contra hn
        rw [← GoMap.get?_eq_none_iff, hg] at hn
        cases hn
      simp [ha, hk]
    | none =>
      rw [hg] at h
      have hk : core.GetIdentity u ∉ GoMap.keys z.registeredServiceMap :=
        (GoMap.get?_eq_none_iff _ _).mp hg
      cases hd : doRegister core zk fuel z.zkConn u with
      | none => rw [hd] at h; cases h
      | some s =>
        rw [hd] at h
        cases h
        simp [ha, hk]

/-- What `UnRegister` leaves behind. -/
theorem UnRegister_maps {σ : Type} (core : MotanCore) (zk : ZkConn σ) (z : ZkRegistry σ)
    (u : URL) :
    (UnRegister core zk z u).available = z.available
      ∧ (UnRegister core zk z u).availableServiceMap = z.availableServiceMap
      ∧ (UnRegister core zk z u).registeredServiceMap
        = if z.available = false then z.registeredServiceMap
          else if core.GetIdentity u ∈ GoMap.keys z.registeredServiceMap then
            GoMap.delete z.registeredServiceMap (core.GetIdentity u)
          else z.registeredServiceMap := by
  unfold UnRegister
  by_cases ha : z.available = false
  · simp [ha]
  · cases hg : GoMap.get? z.registeredServiceMap (core.GetIdentity u) with
    | some v =>
      have hk : core.GetIdentity u ∈ GoMap.keys z.registeredServiceMap := by
        by_contra hn
        rw [← GoMap.get?_eq_none_iff, hg] at hn
        cases hn
      simp [ha, hk]
    | none =>
      have hk : core.GetIdentity u ∉ GoMap.keys z.registeredServiceMap :=
        (GoMap.get?_eq_none_iff _ _).mp hg
      simp [ha, hk]

/-- The loop of `doAvailable(nil)` adds to the available map only identities
of the entries it visits, and leaves the registered map alone. -/
theorem doAvailableAll_eq_some {σ : Type} (core : MotanCore) (zk : ZkConn σ) (fuel : Nat)
    (url : Option URL) (l : List (String × URL)) :
    ∀ (z z1 : ZkRegistry σ), doAvailableAll core zk fuel url l z = some z1 →
      z1.available = z.available ∧ z1.registeredServiceMap = z.registeredServiceMap
        ∧ (∀ id ∈ GoMap.keys z1.availableServiceMap,
            id ∈ GoMap.keys z.availableServiceMap
              ∨ id ∈ l.map (fun p => core.GetIdentity p.2))
        ∧ (∀ k, GoMap.get? z.availableServiceMap k = some url →
            GoMap.get? z1.availableServiceMap k = some url)
        ∧ (∀ p ∈ l, GoMap.get? z1.availableServiceMap (core.GetIdentity p.2) = some url) := by
  induction l with
  | nil =>
    intro z z1 h
    simp only [doAvailableAll] at h
    cases h
    simp
  | cons p rest ih =>
    intro z z1 h
    obtain ⟨k, u⟩ := p
    simp only [doAvailableAll] at h
    cases hc : createNode core zk fuel (removeNode zk z.zkConn u zkNodeTypeUnavailableServer) u
        zkNodeTypeServer with
    | none => rw [hc] at h; cases h
    | some s =>
      rw [hc] at h
      obtain ⟨h1, h2, h3, h4, h5⟩ := ih _ _ h
      refine ⟨h1, h2, ?_, ?_, ?_⟩
      · intro id hid
        rcases h3 id hid with h5 | h5
        · simp only [GoMap.mem_keys_set] at h5
          rcases h5 with h5 | h5
          · right; simp [h5]
          · left; exact h5
        · right
          simp only [List.map_cons, List.mem_cons]
          right; exact h5
      · intro k hk
        apply h4
        by_cases hku : k = core.GetIdentity u
        · rw [hku]
          exact GoMap.get?_set_self _ _ _
        · show GoMap.get? (GoMap.set z.availableServiceMap (core.GetIdentity u) url) k = some url
          rw [GoMap.get?_set_ne _ _ _ _ hku]
          exact hk
      · intro p hp
        rcases List.mem_cons.mp hp with hp | hp
        · subst hp
          apply h4
          exact GoMap.get?_set_self _ _ _
        · exact h5 p hp

/-- The loop of `doUnavailable(nil)` only removes identities from the
available map, and leaves the registered map alone. -/
theorem doUnavailableAll_eq_some {σ : Type} (core : MotanCore) (zk : ZkConn σ) (fuel : Nat)
    (l : List (String × URL)) :
    ∀ (z z1 : ZkRegistry σ), doUnavailableAll core zk fuel l z = some z1 →
      z1.available = z.available ∧ z1.registeredServiceMap = z.registeredServiceMap
        ∧ (∀ id ∈ GoMap.keys z1.availableServiceMap, id ∈ GoMap.keys z.availableServiceMap) := by
  induction l with
  | nil =>
    intro z z1 h
    simp only [doUnavailableAll] at h
    cases h
    simp
  | cons p rest ih =>
    intro z z1 h
    obtain ⟨k, u⟩ := p
    simp only [doUnavailableAll] at h
    cases hc : createNode core zk fuel (removeNode zk z.zkConn u zkNodeTypeServer) u
        zkNodeTypeUnavailableServer with
    | none => rw [hc] at h; cases h
    | some s =>
      rw [hc] at h
      obtain ⟨h1, h2, h3⟩ := ih _ _ h
      refine ⟨h1, h2, ?_⟩
      intro id hid
      have := h3 id hid
      simp only [GoMap.mem_keys_delete] at this
      exact this.1

/-- What `Available` leaves behind when it returns. -/
theorem Available_eq_some {σ : Type} (core : MotanCore) (zk : ZkConn σ) (fuel : Nat)
    (z z1 : ZkRegistry σ) (url : Option URL) (h : Available core zk fuel z url = some z1) :
    z1.available = z.available ∧ z1.registeredServiceMap = z.registeredServiceMap
      ∧ (∀ id ∈ GoMap.keys z1.availableServiceMap,
          id ∈ GoMap.keys z.availableServiceMap
            ∨ (match url with
              | some u => id = core.GetIdentity u
              | none => id ∈ z.registeredServiceMap.map (fun p => core.GetIdentity p.2))) := by
  unfold Available at h
  by_cases ha : z.available = false
  · rw [if_pos ha] at h
    cases h
    exact ⟨rfl, rfl, fun id hid => Or.inl hid⟩
  · rw [if_neg ha] at h
    cases url with
    | none =>
      simp only [doAvailable] at h
      obtain ⟨h1, h2, h3, _, _⟩ := doAvailableAll_eq_some core zk fuel none _ _ _ h
      exact ⟨h1, h2, h3⟩
    | some u =>
      simp only [doAvailable] at h
      cases hc : createNode core zk fuel (removeNode zk z.zkConn u zkNodeTypeUnavailableServer) u
          zkNodeTypeServer with
      | none => rw [hc] at h; cases h
      | some s =>
        rw [hc] at h
        cases h
        refine ⟨rfl, rfl, ?_⟩
        intro id hid
        simp only [GoMap.mem_keys_set] at hid
        rcases hid with hid | hid
        · right; exact hid
        · left; exact hid

/-- What `Unavailable` leaves behind when it returns. -/
theorem Unavailable_eq_some {σ : Type} (core : MotanCore) (zk : ZkConn σ) (fuel : Nat)
    (z z1 : ZkRegistry σ) (url : Option URL) (h : Unavailable core zk fuel z url = some z1) :
    z1.available = z.available ∧ z1.registeredServiceMap = z.registeredServiceMap
      ∧ (∀ id ∈ GoMap.keys z1.availableServiceMap, id ∈ GoMap.keys z.availableServiceMap) := by
  unfold Unavailable at h
  by_cases ha : z.available = false
  · rw [if_pos ha] at h
    cases h
    exact ⟨rfl, rfl, fun id hid => hid⟩
  · rw [if_neg ha] at h
    cases url with
    | none =>
      simp only [doUnavailable] at h
      exact doUnavailableAll_eq_some core zk fuel _ _ _ h
    | some u =>
      simp only [doUnavailable] at h
      cases hc : createNode core zk fuel (removeNode zk z.zkConn u zkNodeTypeServer) u
          zkNodeTypeUnavailableServer with
      | none => rw [hc] at h; cases h
      | some s =>
        rw [hc] at h
        cases h
        refine ⟨rfl, rfl, ?_⟩
        intro id hid
        simp only [GoMap.mem_keys_delete] at hid
        exact hid.1

/-- One admissible call keeps the keys of the registered map the identities of
its values and the available set within the registered set. -/
theorem applyRegOp_preserves {σ : Type} (core : MotanCore) (zk : ZkConn σ) (fuel : Nat)
    (z z1 : ZkRegistry σ) (op : RegOp) (hadm : regOpAdmissible core z op = true)
    (h : applyRegOp core zk fuel z op = some z1)
    (hwf : registeredKeysAreIdentities core z) (hinv : availableWithinRegistered z) :
    registeredKeysAreIdentities core z1 ∧ availableWithinRegistered z1 := by
  cases op with
  | Register u =>
    obtain ⟨_, h2, h3⟩ := Register_eq_some core zk fuel z z1 u h
    unfold registeredKeysAreIdentities availableWithinRegistered at *
    rw [h2, h3]
    split_ifs with ha hk
    · exact ⟨hwf, hinv⟩
    · exact ⟨hwf, hinv⟩
    · constructor
      · intro p hp
        rw [GoMap.mem_set] at hp
        rcases hp with hp | hp
        · rw [hp]
        · exact hwf p hp.1
      · intro id hid
        rw [GoMap.mem_keys_set]
        exact Or.inr (hinv id hid)
  | UnRegister u =>
    simp only [applyRegOp, Option.some.injEq] at h
    subst h
    obtain ⟨_, h2, h3⟩ := UnRegister_maps core zk z u
    simp only [regOpAdmissible, decide_eq_true_eq] at hadm
    unfold registeredKeysAreIdentities availableWithinRegistered at *
    rw [h2, h3]
    split_ifs with ha hk
    · exact ⟨hwf, hinv⟩
    · constructor
      · intro p hp
        rw [GoMap.mem_delete] at hp
        exact hwf p hp.1
      · intro id hid
        rw [GoMap.mem_keys_delete]
        refine ⟨hinv id hid, ?_⟩
        rintro rfl
        exact hadm hid
    · exact ⟨hwf, hinv⟩
  | Available url =>
    obtain ⟨_, h2, h3⟩ := Available_eq_some core zk fuel z z1 url h
    unfold registeredKeysAreIdentities availableWithinRegistered at *
    rw [h2]
    refine ⟨hwf, ?_⟩
    intro id hid
    rcases h3 id hid with h4 | h4
    · exact hinv id h4
    · cases url with
      | none =>
        simp only [List.mem_map] at h4
        obtain ⟨p, hp, rfl⟩ := h4
        rw [← hwf p hp]
        exact List.mem_map_of_mem _ hp
      | some u =>
        simp only at h4
        simp only [regOpAdmissible, decide_eq_true_eq] at hadm
        rw [h4]
        exact hadm
  | Unavailable url =>
    obtain ⟨_, h2, h3⟩ := Unavailable_eq_some core zk fuel z z1 url h
    unfold registeredKeysAreIdentities availableWithinRegistered at *
    rw [h2]
    exact ⟨hwf, fun id hid => hinv id (h3 id hid)⟩

theorem runRegOps_preserves {σ : Type} (core : MotanCore) (zk : ZkConn σ) (fuel : Nat)
    (ops : List RegOp) :
    ∀ (z z1 : ZkRegistry σ), opsAdmissible core zk fuel ops z = true →
      runRegOps core zk fuel ops z = some z1 →
      registeredKeysAreIdentities core z → availableWithinRegistered z →
      registeredKeysAreIdentities core z1 ∧ availableWithinRegistered z1 := by
  induction ops with
  | nil =>
    intro z z1 _ h hwf hinv
    simp only [runRegOps, Option.some.injEq] at h
    subst h
    exact ⟨hwf, hinv⟩
  | cons op ops ih =>
    intro z z1 hadm h hwf hinv
    simp only [runRegOps] at h
    simp only [opsAdmissible, Bool.and_eq_true] at hadm
    cases ha : applyRegOp core zk fuel z op with
    | none => rw [ha] at h; cases h
    | some z2 =>
      rw [ha] at h hadm
      obtain ⟨hwf2, hinv2⟩ := applyRegOp_preserves core zk fuel z z2 op hadm.1 ha hwf hinv
      exact ih z2 z1 hadm.2 h hwf2 hinv2

theorem GoMap.mem_values_set {κ ν : Type} [DecidableEq κ] (m : GoMap κ ν) (k : κ) (v w : ν)
    (h : w ∈ GoMap.values (GoMap.set m k v)) : w = v ∨ w ∈ GoMap.values m := by
  simp only [GoMap.values, List.mem_map] at h ⊢
  obtain ⟨p, hp, rfl⟩ := h
  rw [GoMap.mem_set] at hp
  rcases hp with hp | hp
  · left; rw [hp]
  · right; exact ⟨p, hp.1, rfl⟩

theorem GoMap.mem_values_delete {κ ν : Type} [DecidableEq κ] (m : GoMap κ ν) (k : κ) (w : ν)
    (h : w ∈ GoMap.values (GoMap.delete m k)) : w ∈ GoMap.values m := by
  simp only [GoMap.values, List.mem_map] at h ⊢
  obtain ⟨p, hp, rfl⟩ := h
  rw [GoMap.mem_delete] at hp
  exact ⟨p, hp.1, rfl⟩

/-- One `Register` or `UnRegister` call on an available registry. -/
theorem applyRegOp_registration {σ : Type} (core : MotanCore) (zk : ZkConn σ) (fuel : Nat)
    (z z1 : ZkRegistry σ) (op : RegOp) (hop : op.isRegistration = true)
    (hav : z.available = true) (h : applyRegOp core zk fuel z op = some z1) :
    z1.available = true
      ∧ (registeredKeysAreIdentities core z → registeredKeysAreIdentities core z1)
      ∧ ((GoMap.keys z.registeredServiceMap).Nodup → (GoMap.keys z1.registeredServiceMap).Nodup)
      ∧ (∀ id, id ∈ GoMap.keys z1.registeredServiceMap ↔
          (match op with
            | RegOp.Register u => id = core.GetIdentity u ∨ id ∈ GoMap.keys z.registeredServiceMap
            | RegOp.UnRegister u =>
              id ∈ GoMap.keys z.registeredServiceMap ∧ id ≠ core.GetIdentity u
            | _ => False))
      ∧ (∀ v ∈ GoMap.values z1.registeredServiceMap,
          op = RegOp.Register v ∨ v ∈ GoMap.values z.registeredServiceMap) := by
  have hav' : ¬ z.available = false := by simp [hav]
  cases op with
  | Register u =>
    obtain ⟨h1, _, h3⟩ := Register_eq_some core zk fuel z z1 u h
    rw [if_neg hav'] at h3
    refine ⟨by rw [h1, hav], ?_, ?_, ?_, ?_⟩
    · intro hwf p hp
      rw [h3] at hp
      split_ifs at hp with hk
      · exact hwf p hp
      · rw [GoMap.mem_set] at hp
        rcases hp with hp | hp
        · rw [hp]
        · exact hwf p hp.1
    · intro hnd
      rw [h3]
      split_ifs with hk
      · exact hnd
      · exact GoMap.nodup_keys_set _ _ _ hnd
    · intro id
      rw [h3]
      split_ifs with hk
      · simp only
        constructor
        · intro hid; exact Or.inr hid
        · rintro (hid | hid)
          · rw [hid]; exact hk
          · exact hid
      · simp only [GoMap.mem_keys_set]
    · intro v hv
      rw [h3] at hv
      split_ifs at hv with hk
      · exact Or.inr hv
      · rcases GoMap.mem_values_set _ _ _ _ hv with hv | hv
        · left; rw [hv]
        · right; exact hv
  | UnRegister u =>
    simp only [applyRegOp, Option.some.injEq] at h
    subst h
    obtain ⟨h1, _, h3⟩ := UnRegister_maps core zk z u
    rw [if_neg hav'] at h3
    refine ⟨by rw [h1, hav], ?_, ?_, ?_, ?_⟩
    · intro hwf p hp
      rw [h3] at hp
      split_ifs at hp with hk
      · rw [GoMap.mem_delete] at hp
        exact hwf p hp.1
      · exact hwf p hp
    · intro hnd
      rw [h3]
      split_ifs with hk
      · exact GoMap.nodup_keys_delete _ _ hnd
      · exact hnd
    · intro id
      rw [h3]
      split_ifs with hk
      · simp only [GoMap.mem_keys_delete]
      · simp only
        constructor
        · intro hid
          refine ⟨hid, ?_⟩
          rintro rfl
          exact hk hid
        · exact fun hid => hid.1
    · intro v hv
      rw [h3] at hv
      split_ifs at hv with hk
      · exact Or.inr (GoMap.mem_values_delete _ _ _ hv)
      · exact Or.inr hv
  | Available url => simp [RegOp.isRegistration] at hop
  | Unavailable url => simp [RegOp.isRegistration] at hop

/-- The registered map after a sequence of `Register` and `UnRegister` calls,
from any available registry. -/
theorem runRegOps_registration {σ : Type} (core : MotanCore) (zk : ZkConn σ) (fuel : Nat)
    (ops : List RegOp) :
    ∀ (z z1 : ZkRegistry σ), (∀ op ∈ ops, op.isRegistration = true) → z.available = true →
      runRegOps core zk fuel ops z = some z1 →
      (registeredKeysAreIdentities core z → registeredKeysAreIdentities core z1)
        ∧ ((GoMap.keys z.registeredServiceMap).Nodup →
            (GoMap.keys z1.registeredServiceMap).Nodup)
        ∧ (∀ id, id ∈ GoMap.keys z1.registeredServiceMap ↔
            (registeredAndNotUnregistered core id ops = true
              ∨ (id ∈ GoMap.keys z.registeredServiceMap
                ∧ ops.any (RegOp.unregisters core id) = false)))
        ∧ (∀ v ∈ GoMap.values z1.registeredServiceMap,
            RegOp.Register v ∈ ops ∨ v ∈ GoMap.values z.registeredServiceMap) := by
  induction ops with
  | nil =>
    intro z z1 _ _ h
    simp only [runRegOps, Option.some.injEq] at h
    subst h
    refine ⟨id, id, ?_, ?_⟩
    · intro id
      simp [registeredAndNotUnregistered]
    · intro v hv
      exact Or.inr hv
  | cons op ops ih =>
    intro z z1 hops hav h
    simp only [runRegOps] at h
    cases ha : applyRegOp core zk fuel z op with
    | none => rw [ha] at h; cases h
    | some z2 =>
      rw [ha] at h
      have hop : op.isRegistration = true := hops op (List.mem_cons_self _ _)
      obtain ⟨s1, s2, s3, s4, s5⟩ := applyRegOp_registration core zk fuel z z2 op hop hav ha
      obtain ⟨i2, i3, i4, i5⟩ :=
        ih z2 z1 (fun o ho => hops o (List.mem_cons_of_mem _ ho)) s1 h
      refine ⟨fun hw => i2 (s2 hw), fun hn => i3 (s3 hn), ?_, ?_⟩
      · intro id
        rw [i4 id, s4 id]
        cases op with
        | Register u =>
          simp only [registeredAndNotUnregistered, List.any_cons, RegOp.unregisters,
            Bool.false_or, Bool.or_eq_true, Bool.and_eq_true, decide_eq_true_eq,
            Bool.not_eq_true']
          constructor
          · rintro (hl | ⟨hk | hk, hn⟩)
            · exact Or.inl (Or.inr hl)
            · exact Or.inl (Or.inl ⟨hk.symm, hn⟩)
            · exact Or.inr ⟨hk, hn⟩
          · rintro ((⟨hk, hn⟩ | hl) | ⟨hk, hn⟩)
            · exact Or.inr ⟨Or.inl hk.symm, hn⟩
            · exact Or.inl hl
            · exact Or.inr ⟨Or.inr hk, hn⟩
        | UnRegister u =>
          simp only [registeredAndNotUnregistered, List.any_cons, RegOp.unregisters,
            Bool.or_eq_false_iff, decide_eq_false_iff_not]
          constructor
          · rintro (hl | ⟨⟨hk, hne⟩, hn⟩)
            · exact Or.inl hl
            · exact Or.inr ⟨hk, fun e => hne e.symm, hn⟩
          · rintro (hl | ⟨hk, hne, hn⟩)
            · exact Or.inl hl
            · exact Or.inr ⟨⟨hk, fun e => hne e.symm⟩, hn⟩
        | Available url => simp [RegOp.isRegistration] at hop
        | Unavailable url => simp [RegOp.isRegistration] at hop
      · intro v hv
        rcases i5 v hv with h6 | h6
        · exact Or.inl (List.mem_cons_of_mem _ h6)
        · rcases s5 v h6 with h7 | h7
          · left; rw [h7]; exact List.mem_cons_self _ _
          · exact Or.inr h7

theorem GoMap.values_map_identity (core : MotanCore) (m : GoMap String URL)
    (h : ∀ p ∈ m, p.1 = core.GetIdentity p.2) :
    (GoMap.values m).map core.GetIdentity = GoMap.keys m := by
  simp only [GoMap.values, GoMap.keys, List.map_map]
  apply List.map_congr_left
  intro p hp
  exact (h p hp).symm

/-! ## Nodes of a registered service -/

theorem nodeExists_of_ok {σ : Type} (zk : ZkConn σ) (s : σ) (path : String) (b : Bool)
    (v : Int) (h : zk.Exists s path = Except.ok (b, v)) : nodeExists zk s path = b := by
  simp [nodeExists, h]

/-- On a faithful store `removeNode` leaves every node but the one it is
asked to remove. -/
theorem removeNode_faithful {σ : Type} (zk : ZkConn σ) (hf : FaithfulStore zk) (s : σ)
    (url : URL) (nodeType : String) (q : String) :
    nodeExists zk (removeNode zk s url nodeType) q
      = (!decide (q = if nodeType = zkNodeTypeAgent then toAgentNodePath url
            else toNodePath url nodeType) && nodeExists zk s q) := by
  unfold removeNode
  simp only
  generalize (if nodeType = zkNodeTypeAgent then toAgentNodePath url
    else toNodePath url nodeType) = nodePath
  obtain ⟨⟨b, v⟩, hr⟩ := hf.exists_ok s nodePath
  have hb := nodeExists_of_ok zk s nodePath b v hr
  cases b with
  | true =>
    obtain ⟨s1, hd, hq⟩ := hf.delete_ok s nodePath v
    simp only [hr, hd]
    exact hq q
  | false =>
    simp only [hr]
    by_cases hqp : q = nodePath
    · subst hqp
      simp [hb]
    · simp [hqp]

/-- On a faithful store `createPersistent` returns at its first `Create`. -/
theorem createPersistent_faithful {σ : Type} (zk : ZkConn σ) (hf : FaithfulStore zk) (s : σ)
    (path : String) (createParents : Bool) (fuel : Nat) :
    ∃ s1, createPersistent zk s path createParents (fuel + 1) = some s1
      ∧ ∀ q, nodeExists zk s1 q = (decide (q = path) || nodeExists zk s q) := by
  obtain ⟨s1, hc, hq⟩ := hf.create_ok s path "" 0
  exact ⟨s1, by simp [createPersistent, hc], hq⟩

/-- On a faithful store `createNode` returns, the node exists afterwards, and
only the node and its type path can have changed. -/
theorem createNode_faithful {σ : Type} (core : MotanCore) (zk : ZkConn σ)
    (hf : FaithfulStore zk) (fuel : Nat) (s : σ) (url : URL) (nodeType : String) :
    ∃ s1, createNode core zk (fuel + 1) s url nodeType = some s1
      ∧ nodeExists zk s1 (if nodeType = zkNodeTypeAgent then toAgentNodePath url
          else toNodePath url nodeType) = true
      ∧ ∀ q, q ≠ (if nodeType = zkNodeTypeAgent then toAgentNodePath url
            else toNodePath url nodeType) →
          q ≠ (if nodeType = zkNodeTypeAgent then toAgentNodeTypePath url
            else toNodeTypePath url nodeType) →
          nodeExists zk s1 q = nodeExists zk s q := by
  unfold createNode
  simp only
  have hrm := removeNode_faithful zk hf s url nodeType
  generalize (if nodeType = zkNodeTypeAgent then toAgentNodePath url
    else toNodePath url nodeType) = nodePath at hrm ⊢
  generalize (if nodeType = zkNodeTypeAgent then toAgentNodeTypePath url
    else toNodeTypePath url nodeType) = typePath
  generalize removeNode zk s url nodeType = s1 at hrm ⊢
  obtain ⟨⟨b, v⟩, hr⟩ := hf.exists_ok s1 typePath
  simp only [hr]
  cases b with
  | true =>
    obtain ⟨s3, hc, hq⟩ := hf.create_ok s1 nodePath (core.ToExtInfo url) FlagEphemeral
    simp only [if_true, hc]
    refine ⟨s3, rfl, by simp [hq], ?_⟩
    intro q h1 h2
    rw [hq q, hrm q]
    simp [h1]
  | false =>
    obtain ⟨s2, hp, hq2⟩ := createPersistent_faithful zk hf s1 typePath true fuel
    obtain ⟨s3, hc, hq⟩ := hf.create_ok s2 nodePath (core.ToExtInfo url) FlagEphemeral
    simp only [Bool.false_eq_true, if_false, hp, hc]
    refine ⟨s3, rfl, by simp [hq], ?_⟩
    intro q h1 h2
    rw [hq q, hq2 q, hrm q]
    simp [h1, h2]

theorem unavailable_ne_server_node (u : URL) :
    toNodePath u zkNodeTypeUnavailableServer ≠ toNodePath u zkNodeTypeServer := by
  intro h
  have := congrArg String.length h
  simp only [toNodePath, toNodeTypePath, zkNodeTypeUnavailableServer, zkNodeTypeServer,
    String.length_append] at this
  have e1 : "unavailableServer".length = 17 := by decide
  have e2 : "server".length = 6 := by decide
  omega

theorem unavailable_ne_server_type (u : URL) :
    toNodePath u zkNodeTypeUnavailableServer ≠ toNodeTypePath u zkNodeTypeServer := by
  intro h
  have := congrArg String.length h
  simp only [toNodePath, toNodeTypePath, zkNodeTypeUnavailableServer, zkNodeTypeServer,
    String.length_append] at this
  have e1 : "unavailableServer".length = 17 := by decide
  have e2 : "server".length = 6 := by decide
  omega

/-- On a faithful store `Register` returns. -/
theorem Register_faithful {σ : Type} (core : MotanCore) (zk : ZkConn σ) (hf : FaithfulStore zk)
    (fuel : Nat) (z : ZkRegistry σ) (u : URL) :
    ∃ z1, Register core zk (fuel + 1) z u = some z1 := by
  unfold Register
  split_ifs with ha
  · exact ⟨z, rfl⟩
  · cases hg : GoMap.get? z.registeredServiceMap (core.GetIdentity u) with
    | some v => exact ⟨z, rfl⟩
    | none =>
      have hd : ∃ s, doRegister core zk (fuel + 1) z.zkConn u = some s := by
        unfold doRegister
        split_ifs with hag
        · obtain ⟨s1, h1, _⟩ := createNode_faithful core zk hf fuel z.zkConn u zkNodeTypeAgent
          exact ⟨s1, h1⟩
        · obtain ⟨s1, h1, _⟩ := createNode_faithful core zk hf fuel
            (removeNode zk z.zkConn u zkNodeTypeServer) u zkNodeTypeUnavailableServer
          exact ⟨s1, h1⟩
      obtain ⟨s, hs⟩ := hd
      simp only [hs]
      exact ⟨_, rfl⟩

theorem doAvailableAll_faithful {σ : Type} (core : MotanCore) (zk : ZkConn σ)
    (hf : FaithfulStore zk) (fuel : Nat) (url : Option URL) (l : List (String × URL)) :
    ∀ z : ZkRegistry σ, ∃ z1, doAvailableAll core zk (fuel + 1) url l z = some z1 := by
  induction l with
  | nil => exact fun z => ⟨z, rfl⟩
  | cons p rest ih =>
    intro z
    obtain ⟨k, u⟩ := p
    obtain ⟨s1, h1, _⟩ := createNode_faithful core zk hf fuel
      (removeNode zk z.zkConn u zkNodeTypeUnavailableServer) u zkNodeTypeServer
    simp only [doAvailableAll, h1]
    exact ih _

theorem doUnavailableAll_faithful {σ : Type} (core : MotanCore) (zk : ZkConn σ)
    (hf : FaithfulStore zk) (fuel : Nat) (l : List (String × URL)) :
    ∀ z : ZkRegistry σ, ∃ z1, doUnavailableAll core zk (fuel + 1) l z = some z1 := by
  induction l with
  | nil => exact fun z => ⟨z, rfl⟩
  | cons p rest ih =>
    intro z
    obtain ⟨k, u⟩ := p
    obtain ⟨s1, h1, _⟩ := createNode_faithful core zk hf fuel
      (removeNode zk z.zkConn u zkNodeTypeServer) u zkNodeTypeUnavailableServer
    simp only [doUnavailableAll, h1]
    exact ih _

/-- On a faithful store every registration call returns. -/
theorem applyRegOp_faithful {σ : Type} (core : MotanCore) (zk : ZkConn σ)
    (hf : FaithfulStore zk) (fuel : Nat) (z : ZkRegistry σ) (op : RegOp) :
    ∃ z1, applyRegOp core zk (fuel + 1) z op = some z1 := by
  cases op with
  | Register u => exact Register_faithful core zk hf fuel z u
  | UnRegister u => exact ⟨_, rfl⟩
  | Available url =>
    simp only [applyRegOp, Available]
    split_ifs with ha
    · exact ⟨z, rfl⟩
    · cases url with
      | none => exact doAvailableAll_faithful core zk hf fuel none _ z
      | some u =>
        obtain ⟨s1, h1, _⟩ := createNode_faithful core zk hf fuel
          (removeNode zk z.zkConn u zkNodeTypeUnavailableServer) u zkNodeTypeServer
        simp only [doAvailable, h1]
        exact ⟨_, rfl⟩
  | Unavailable url =>
    simp only [applyRegOp, Unavailable]
    split_ifs with ha
    · exact ⟨z, rfl⟩
    · cases url with
      | none => exact doUnavailableAll_faithful core zk hf fuel _ z
      | some u =>
        obtain ⟨s1, h1, _⟩ := createNode_faithful core zk hf fuel
          (removeNode zk z.zkConn u zkNodeTypeServer) u zkNodeTypeUnavailableServer
        simp only [doUnavailable, h1]
        exact ⟨_, rfl⟩

/-- On a faithful store every sequence of registration calls returns. -/
theorem runRegOps_faithful {σ : Type} (core : MotanCore) (zk : ZkConn σ)
    (hf : FaithfulStore zk) (fuel : Nat) (ops : List RegOp) :
    ∀ z : ZkRegistry σ, ∃ z1, runRegOps core zk (fuel + 1) ops z = some z1 := by
  induction ops with
  | nil => exact fun z => ⟨z, rfl⟩
  | cons op ops ih =>
    intro z
    obtain ⟨z2, h2⟩ := applyRegOp_faithful core zk hf fuel z op
    simp only [runRegOps, h2]
    exact ih z2

/-- C1 as stated fails: `Available(u)` for a URL that was never registered
puts it in the available map, and `UnRegister(u)` leaves an available `u` in
the available map. -/
theorem available_outside_registered :
    (∃ z, runRegOps exampleCore idealConn 1 [RegOp.Available (some testURL)] (Initialize [])
          = some z
        ∧ GoMap.keys z.availableServiceMap = [exampleCore.GetIdentity testURL]
        ∧ GoMap.keys z.registeredServiceMap = []
        ∧ ¬ availableWithinRegistered z)
      ∧ (∃ z, runRegOps exampleCore idealConn 1
            [RegOp.Register testURL, RegOp.Available (some testURL), RegOp.UnRegister testURL]
            (Initialize []) = some z
        ∧ GoMap.keys z.availableServiceMap = [exampleCore.GetIdentity testURL]
        ∧ GoMap.keys z.registeredServiceMap = []
        ∧ ¬ availableWithinRegistered z) := by
  refine ⟨⟨_, rfl, rfl, rfl, ?_⟩, ⟨_, rfl, by decide, by decide, ?_⟩⟩
  · unfold availableWithinRegistered
    decide
  · unfold availableWithinRegistered
    decide

/-- C1, amended: in every state reached from a freshly initialised registry by
a finite sequence of `Register`, `UnRegister`, `Available` and `Unavailable`
calls in which each `Available(u)` with a URL is made while `u` is registered
and each `UnRegister(u)` is made while `u` is not available, every identity of
the available service map is an identity of the registered service map; on a
faithful store every such sequence of calls returns. -/
theorem available_within_registered {σ : Type} (core : MotanCore) (zk : ZkConn σ) (fuel : Nat)
    (conn : σ) (ops : List RegOp)
    (hadm : opsAdmissible core zk fuel ops (Initialize conn) = true) :
    (∀ z, runRegOps core zk fuel ops (Initialize conn) = some z → availableWithinRegistered z)
      ∧ (FaithfulStore zk → 0 < fuel →
          ∃ z, runRegOps core zk fuel ops (Initialize conn) = some z) := by
  constructor
  · intro z hrun
    refine (runRegOps_preserves core zk fuel ops (Initialize conn) z hadm hrun ?_ ?_).2
    · intro p hp
      simp [Initialize] at hp
    · intro id hid
      simp [Initialize, GoMap.keys] at hid
  · intro hf hfuel
    obtain ⟨n, rfl⟩ : ∃ n, fuel = n + 1 := ⟨fuel - 1, by omega⟩
    exact runRegOps_faithful core zk hf n ops _

theorem available_within_registered_witness :
    opsAdmissible exampleCore idealConn 1
        [RegOp.Register testURL, RegOp.Available (some testURL), RegOp.Unavailable none,
          RegOp.Available none, RegOp.Unavailable (some testURL), RegOp.UnRegister testURL]
        (Initialize []) = true
      ∧ ∃ z, runRegOps exampleCore idealConn 1
            [RegOp.Register testURL, RegOp.Available (some testURL), RegOp.Unavailable none,
              RegOp.Available none, RegOp.Unavailable (some testURL), RegOp.UnRegister testURL]
            (Initialize []) = some z
        ∧ availableWithinRegistered z :=
  ⟨by decide, _, rfl,
    (available_within_registered exampleCore idealConn 1 []
      [RegOp.Register testURL, RegOp.Available (some testURL), RegOp.Unavailable none,
        RegOp.Available none, RegOp.Unavailable (some testURL), RegOp.UnRegister testURL]
      (by decide)).1 _ rfl⟩

/-- C2: with the registry available, after any finite sequence of `Register`
and `UnRegister` calls from an empty registry, `GetRegisteredServices` returns
at most one URL per identity, the identities returned are exactly those
registered and not subsequently unregistered, and every URL returned was
passed to `Register`; on a faithful store every such sequence of calls
returns. -/
theorem GetRegisteredServices_exact {σ : Type} (core : MotanCore) (zk : ZkConn σ) (fuel : Nat)
    (conn : σ) (ops : List RegOp) (hops : ∀ op ∈ ops, op.isRegistration = true) :
    (∀ z, runRegOps core zk fuel ops (Initialize conn) = some z →
        ((GetRegisteredServices z).map core.GetIdentity).Nodup
          ∧ (∀ id, id ∈ (GetRegisteredServices z).map core.GetIdentity ↔
              registeredAndNotUnregistered core id ops = true)
          ∧ (∀ u ∈ GetRegisteredServices z, RegOp.Register u ∈ ops))
      ∧ (FaithfulStore zk → 0 < fuel →
          ∃ z, runRegOps core zk fuel ops (Initialize conn) = some z) := by
  constructor
  · intro z hrun
    obtain ⟨h2, h3, h4, h5⟩ :=
      runRegOps_registration core zk fuel ops (Initialize conn) z hops rfl hrun
    have hwf : registeredKeysAreIdentities core z :=
      h2 (by intro p hp; simp [Initialize] at hp)
    have hnd : (GoMap.keys z.registeredServiceMap).Nodup :=
      h3 (by simp [Initialize, GoMap.keys])
    have hkeys := GoMap.values_map_identity core z.registeredServiceMap hwf
    unfold GetRegisteredServices
    rw [hkeys]
    refine ⟨hnd, ?_, ?_⟩
    · intro id
      rw [h4 id]
      simp [Initialize, GoMap.keys]
    · intro u hu
      rcases h5 u hu with h6 | h6
      · exact h6
      · simp [Initialize, GoMap.values] at h6
  · intro hf hfuel
    obtain ⟨n, rfl⟩ : ∃ n, fuel = n + 1 := ⟨fuel - 1, by omega⟩
    exact runRegOps_faithful core zk hf n ops _

theorem GetRegisteredServices_exact_witness :
    (∀ op ∈ [RegOp.Register testURL, RegOp.Register testURL2, RegOp.UnRegister testURL,
        RegOp.Register testURL2], op.isRegistration = true)
      ∧ ∃ z, runRegOps exampleCore idealConn 1
            [RegOp.Register testURL, RegOp.Register testURL2, RegOp.UnRegister testURL,
              RegOp.Register testURL2] (Initialize []) = some z
        ∧ GetRegisteredServices z = [testURL2]
        ∧ ((GetRegisteredServices z).map exampleCore.GetIdentity).Nodup
        ∧ (∀ id, id ∈ (GetRegisteredServices z).map exampleCore.GetIdentity ↔
            registeredAndNotUnregistered exampleCore id
              [RegOp.Register testURL, RegOp.Register testURL2, RegOp.UnRegister testURL,
                RegOp.Register testURL2] = true)
        ∧ (∀ u ∈ GetRegisteredServices z,
            RegOp.Register u ∈ [RegOp.Register testURL, RegOp.Register testURL2,
              RegOp.UnRegister testURL, RegOp.Register testURL2]) :=
  ⟨by decide, _, rfl, by decide,
    (GetRegisteredServices_exact exampleCore idealConn 1 []
      [RegOp.Register testURL, RegOp.Register testURL2, RegOp.UnRegister testURL,
        RegOp.Register testURL2] (by decide)).1 _ rfl⟩

/-- C3: against a store whose `Exists`, `Delete` and `Create` calls are
faithful and never fail, and with the registry available, `Register(u)`
followed by `Available(u)` returns, and afterwards the node at
`toNodePath(u, "server")` exists and the node at
`toNodePath(u, "unavailableServer")` does not. -/
theorem register_available_nodes {σ : Type} (core : MotanCore) (zk : ZkConn σ)
    (hf : FaithfulStore zk) (fuel : Nat) (z : ZkRegistry σ) (u : URL)
    (hav : z.available = true) :
    ∃ z1 z2, Register core zk (fuel + 1) z u = some z1
      ∧ Available core zk (fuel + 1) z1 (some u) = some z2
      ∧ nodeExists zk z2.zkConn (toNodePath u "server") = true
      ∧ nodeExists zk z2.zkConn (toNodePath u "unavailableServer") = false := by
  obtain ⟨z1, hz1⟩ := Register_faithful core zk hf fuel z u
  have hav1 : z1.available = true := by
    rw [(Register_eq_some core zk (fuel + 1) z z1 u hz1).1, hav]
  obtain ⟨s2, hc, hex, hframe⟩ := createNode_faithful core zk hf fuel
    (removeNode zk z1.zkConn u zkNodeTypeUnavailableServer) u zkNodeTypeServer
  have hna : ¬ zkNodeTypeServer = zkNodeTypeAgent := by decide
  have hnu : ¬ zkNodeTypeUnavailableServer = zkNodeTypeAgent := by decide
  rw [if_neg hna] at hex
  rw [if_neg hna, if_neg hna] at hframe
  refine ⟨z1, { z1 with
    zkConn := s2
    availableServiceMap := GoMap.set z1.availableServiceMap (core.GetIdentity u) (some u) },
    hz1, ?_, hex, ?_⟩
  · unfold Available
    rw [if_neg (by simp [hav1])]
    simp only [doAvailable, hc]
  · show nodeExists zk s2 (toNodePath u zkNodeTypeUnavailableServer) = false
    rw [hframe _ (unavailable_ne_server_node u) (unavailable_ne_server_type u),
      removeNode_faithful zk hf, if_neg hnu]
    simp

/-- The store `idealConn` is faithful. -/
theorem idealConn_faithful : FaithfulStore idealConn where
  exists_ok := fun s path => ⟨_, rfl⟩
  delete_ok := fun s path _ => ⟨_, rfl, fun q => by
    by_cases hq : q = path <;> simp [nodeExists, idealConn, hq]⟩
  create_ok := fun s path _ _ => ⟨_, rfl, fun q => by
    by_cases hq : q = path <;> simp [nodeExists, idealConn, hq]⟩

theorem register_available_nodes_witness :
    FaithfulStore idealConn ∧ (Initialize ([] : List String)).available = true
      ∧ ∃ z1 z2, Register exampleCore idealConn (0 + 1) (Initialize []) testURL = some z1
        ∧ Available exampleCore idealConn (0 + 1) z1 (some testURL) = some z2
        ∧ nodeExists idealConn z2.zkConn (toNodePath testURL "server") = true
        ∧ nodeExists idealConn z2.zkConn (toNodePath testURL "unavailableServer") = false :=
  ⟨idealConn_faithful, rfl,
    register_available_nodes exampleCore idealConn idealConn_faithful 0 (Initialize []) testURL
      rfl⟩

/-- C4: after `Register(u)` and `Available(nil)` the available service map
holds the nil pointer under the identity of `u`, not `u`: the loop of
`doAvailable` stores its argument `url`, which is nil in that branch, where
the other branch stores the URL. -/
theorem available_nil_stores_nil :
    ∃ z1 z2, Register exampleCore idealConn 1 (Initialize []) testURL = some z1
      ∧ Available exampleCore idealConn 1 z1 none = some z2
      ∧ GoMap.get? z2.registeredServiceMap (exampleCore.GetIdentity testURL) = some testURL
      ∧ GoMap.get? z2.availableServiceMap (exampleCore.GetIdentity testURL) = some none
      ∧ GoMap.get? z2.availableServiceMap (exampleCore.GetIdentity testURL)
        ≠ some (some testURL) :=
  ⟨_, _, rfl, rfl, by decide, by decide, by decide⟩

/-- On an available registry, `Available(nil)` stores the nil pointer under
the identity of every registered URL. -/
theorem doAvailable_nil_value {σ : Type} (core : MotanCore) (zk : ZkConn σ) (fuel : Nat)
    (z z1 : ZkRegistry σ) (hav : z.available = true)
    (h : Available core zk fuel z none = some z1) :
    ∀ u ∈ GoMap.values z1.registeredServiceMap,
      GoMap.get? z1.availableServiceMap (core.GetIdentity u) = some none := by
  unfold Available at h
  rw [if_neg (by simp [hav])] at h
  simp only [doAvailable] at h
  obtain ⟨_, h2, _, _, h5⟩ := doAvailableAll_eq_some core zk fuel none _ _ _ h
  intro u hu
  rw [h2] at hu
  simp only [GoMap.values, List.mem_map] at hu
  obtain ⟨p, hp, rfl⟩ := hu
  exact h5 p hp

/-! ## Subscription state -/

/-- When `Unsubscribe(u, L)` removes the last listener of the service path and
the path has a switch channel, `false` is sent on the channel and the
subscription table has no entry at the path afterwards. -/
theorem Unsubscribe_last_with_switch {σ : Type} (z : ZkRegistry σ) (u : URL)
    (l : NotifyListener) (listeners : GoMap NotifyListener URL) (hav : z.available = true)
    (hsome : GoMap.get? z.subscribedServiceMap (toNodeTypePath u "server") = some listeners)
    (hlast : ∀ k ∈ GoMap.keys listeners, k = l)
    (hsw : GoMap.get? z.switcherMap (toNodeTypePath u "server") = some ()) :
    GoMap.get? (Unsubscribe z u l).subscribedServiceMap (toNodeTypePath u "server") = none
      ∧ (Unsubscribe z u l).switchSent = z.switchSent ++ [(toNodeTypePath u "server", false)] := by
  have hdel : GoMap.delete listeners l = [] := by
    unfold GoMap.delete
    rw [List.filter_eq_nil_iff]
    intro p hp
    have := hlast p.1 (List.mem_map_of_mem _ hp)
    simp [this]
  unfold Unsubscribe
  rw [if_neg (by simp [hav])]
  have hs : GoMap.get? z.subscribedServiceMap (toNodeTypePath u zkNodeTypeServer)
      = some listeners := hsome
  have hw : GoMap.get? z.switcherMap (toNodeTypePath u zkNodeTypeServer) = some () := hsw
  simp only [hs, hdel, hw, List.length_nil, Nat.lt_one_iff, if_true]
  exact ⟨GoMap.get?_delete_self _ _, rfl⟩

/-- C6: on a registry whose first `doSubscribe` found that the service path
does not exist, `Unsubscribe` of the only listener leaves an entry with no
listener in the subscription table: the entry is removed only under the test
that the path has a switch channel. -/
theorem unsubscribe_last_keeps_entry :
    ∃ z1 u1, Subscribe exampleCore idealConn 1 (Initialize []) testURL 1 = some (z1, u1)
      ∧ GoMap.get? z1.subscribedServiceMap (toNodeTypePath testURL "server")
        = some [(1, testURL)]
      ∧ GoMap.get? z1.switcherMap (toNodeTypePath testURL "server") = none
      ∧ GoMap.get? (Unsubscribe z1 u1 1).subscribedServiceMap (toNodeTypePath testURL "server")
        = some []
      ∧ GoMap.get? (Unsubscribe z1 u1 1).subscribedServiceMap (toNodeTypePath testURL "server")
        ≠ none :=
  ⟨_, _, rfl, by decide, by decide, by decide, by decide⟩

/-! # HTTP provider -/

/-! ## Strings -/

theorem countPair_cons_ne (a b c : Char) (l : List Char) (h : c ≠ a) :
    countPair a b (c :: l) = countPair a b l := by
  cases l with
  | nil => simp [countPair]
  | cons d rest => simp [countPair, h]

theorem countPair_not_mem (a b : Char) (l : List Char) (h : a ∉ l) : countPair a b l = 0 := by
  induction l with
  | nil => rfl
  | cons c l ih =>
    rw [List.mem_cons, not_or] at h
    rw [countPair_cons_ne a b c l (fun e => h.1 e.symm)]
    exact ih h.2

/-- A string with the pattern once and its first character nowhere else holds
one occurrence of the pattern. -/
theorem countPair_single (a b : Char) (pre post : List Char) (h1 : a ∉ pre) (h2 : a ∉ post) :
    countPair a b (pre ++ a :: b :: post) = 1 := by
  induction pre with
  | nil => simp [countPair, countPair_not_mem a b post h2]
  | cons c pre ih =>
    rw [List.mem_cons, not_or] at h1
    rw [List.cons_append, countPair_cons_ne a b c _ (fun e => h1.1 e.symm)]
    exact ih h1.2

theorem replacePair_cons_ne (a b c : Char) (new l : List Char) (h : c ≠ a) :
    replacePair a b new (c :: l) = c :: replacePair a b new l := by
  cases l with
  | nil => simp [replacePair]
  | cons d rest => simp [replacePair, h]

theorem replacePair_not_mem (a b : Char) (new l : List Char) (h : a ∉ l) :
    replacePair a b new l = l := by
  induction l with
  | nil => rfl
  | cons c l ih =>
    rw [List.mem_cons, not_or] at h
    rw [replacePair_cons_ne a b c new l (fun e => h.1 e.symm), ih h.2]

/-- Before the first occurrence of the first character of the pattern nothing
is replaced, and the replacement goes on after the occurrence. -/
theorem replacePair_append (a b : Char) (new pre post : List Char) (h1 : a ∉ pre) :
    replacePair a b new (pre ++ a :: b :: post) = pre ++ new ++ replacePair a b new post := by
  induction pre with
  | nil => simp [replacePair]
  | cons c pre ih =>
    rw [List.mem_cons, not_or] at h1
    rw [List.cons_append, replacePair_cons_ne a b c new _ (fun e => h1.1 e.symm), ih h1.2]
    simp

theorem sprintfScan_cons_ne (c : Char) (l : List Char) (args : List String) (h : c ≠ '%') :
    sprintfScan (c :: l) args = (c :: (sprintfScan l args).1, (sprintfScan l args).2) := by
  cases l with
  | nil => simp [sprintfScan, h]
  | cons d rest => simp [sprintfScan, h]

theorem sprintfScan_not_mem (l : List Char) (args : List String) (h : '%' ∉ l) :
    sprintfScan l args = (l, args) := by
  induction l with
  | nil => rfl
  | cons c l ih =>
    rw [List.mem_cons, not_or] at h
    rw [sprintfScan_cons_ne c l args (fun e => h.1 e.symm), ih h.2]

theorem sprintfScan_single (pre post : List Char) (arg : String) (h1 : '%' ∉ pre)
    (h2 : '%' ∉ post) :
    sprintfScan (pre ++ '%' :: 's' :: post) [arg] = (pre ++ arg.toList ++ post, []) := by
  induction pre with
  | nil => simp [sprintfScan, sprintfScan_not_mem post [] h2]
  | cons c pre ih =>
    rw [List.mem_cons, not_or] at h1
    rw [List.cons_append, sprintfScan_cons_ne c _ _ (fun e => h1.1 e.symm), ih h1.2]
    simp

/-- The model `goSprintf` replaces the single verb of a format that has no
other percent sign. -/
theorem goSprintf_substitutes : SprintfSubstitutes goSprintf := by
  intro pre post arg h1 h2
  have hs : (pre ++ "%s" ++ post).toList = pre.toList ++ '%' :: 's' :: post.toList := by
    simp [String.toList]
  unfold goSprintf
  rw [hs, sprintfScan_single pre.toList post.toList arg h1 h2]
  apply String.ext
  simp [String.toList]

theorem countPlaceholders_single (pre post : String) (h1 : '%' ∉ pre.toList)
    (h2 : '%' ∉ post.toList) : countPlaceholders (pre ++ "%s" ++ post) = 1 := by
  have hs : (pre ++ "%s" ++ post).toList = pre.toList ++ '%' :: 's' :: post.toList := by
    simp [String.toList]
  unfold countPlaceholders
  rw [hs]
  exact countPair_single '%' 's' _ _ h1 h2

/-! ## URL and method resolution -/

/-- The selection made by `buildReqURL` is the one the specification
words. -/
theorem buildReqURLSelect_eq (env : ProviderEnv) (request : MotanRequest) (h : HTTPProvider) :
    buildReqURLSelect env request h
      = (selectedTemplate env request h, layeredHTTPMethod env request h) := by
  unfold buildReqURLSelect selectedTemplate layeredHTTPMethod selectedConf
  simp only [MotanRequestHTTPMethodKey, DefaultMotanHTTPMethod]
  cases hatt : GoMap.get? request.Attachment "HTTP_Method" <;>
    cases hsec : GoMap.get? h.srvURLMap (mapIndex h.url.Parameters env.URLConfKey) with
    | none => simp
    | some srvConf =>
      cases hc1 : GoMap.get? srvConf request.Method with
      | some conf =>
        cases hf : GoMap.get? conf "URL_FORMAT" <;>
          cases hm : GoMap.get? conf "HTTP_REQUEST_METHOD" <;> simp [hc1, hf, hm]
      | none =>
        cases hc2 : GoMap.get? srvConf DefaultMotanMethodConfKey with
        | some conf =>
          cases hf : GoMap.get? conf "URL_FORMAT" <;>
            cases hm : GoMap.get? conf "HTTP_REQUEST_METHOD" <;> simp [hc1, hc2, hf, hm]
        | none => simp [hc1, hc2, GoMap.get?]

/-- The result of `buildReqURL` in terms of the selected template and
method. -/
theorem buildReqURL_eq (env : ProviderEnv) (request : MotanRequest) (h : HTTPProvider) :
    buildReqURL env request h
      = if 1 < countPlaceholders (selectedTemplate env request h) then
          ("", layeredHTTPMethod env request h,
            some ("Get err URL_FORMAT: " ++ selectedTemplate env request h))
        else if 0 < countPlaceholders (selectedTemplate env request h) then
          (env.Sprintf (selectedTemplate env request h) request.Method,
            layeredHTTPMethod env request h, none)
        else (selectedTemplate env request h, layeredHTTPMethod env request h, none) := by
  unfold buildReqURL
  simp only [buildReqURLSelect_eq]
  by_cases h1 : 1 < countPlaceholders (selectedTemplate env request h)
  · have h0 : countPlaceholders (selectedTemplate env request h) > 0 := by omega
    simp [h1, h0]
  · by_cases h0 : 0 < countPlaceholders (selectedTemplate env request h)
    · simp [h1, h0]
    · simp [h1, h0]

/-- C11 as stated fails: in a template with an escaped percent sign before its
single `%s`, `fmt.Sprintf` also rewrites `%%`, so the resolved URL is not the
template with the occurrence of `%s` replaced by the method name. -/
theorem buildReqURL_escaped_percent :
    countPlaceholders "https://h/a%%b/%s" = 1
      ∧ buildReqURLSelect exampleEnv (exampleRequest none []) escapedPercentProvider
        = ("https://h/a%%b/%s", "GET")
      ∧ buildReqURL exampleEnv (exampleRequest none []) escapedPercentProvider
        = ("https://h/a%b/foo", "GET", none)
      ∧ substituteMethod "https://h/a%%b/%s" "foo" = "https://h/a%%b/foo"
      ∧ (buildReqURL exampleEnv (exampleRequest none []) escapedPercentProvider).1
        ≠ substituteMethod "https://h/a%%b/%s" "foo" := by
  decide

/-- C11, amended: for every motan method name `m`, if the selected template
has no occurrence of `%s` the resolved URL is the template unchanged, and if
it has exactly one occurrence of `%s` and no other percent sign the resolved
URL is the template with that occurrence replaced by `m`; no error is returned
in either case. -/
theorem buildReqURL_resolves (env : ProviderEnv) (request : MotanRequest) (h : HTTPProvider)
    (hS : SprintfSubstitutes env.Sprintf) :
    (countPlaceholders (buildReqURLSelect env request h).1 = 0 →
        (buildReqURL env request h).1 = (buildReqURLSelect env request h).1
          ∧ (buildReqURL env request h).2.2 = none)
      ∧ (∀ pre post : String, (buildReqURLSelect env request h).1 = pre ++ "%s" ++ post →
          '%' ∉ pre.toList → '%' ∉ post.toList →
          countPlaceholders (buildReqURLSelect env request h).1 = 1
            ∧ (buildReqURL env request h).1 = pre ++ request.Method ++ post
            ∧ (buildReqURL env request h).1
              = substituteMethod (buildReqURLSelect env request h).1 request.Method
            ∧ (buildReqURL env request h).2.2 = none) := by
  constructor
  · intro h0
    rw [buildReqURLSelect_eq] at h0
    rw [buildReqURL_eq, buildReqURLSelect_eq]
    simp only at h0
    simp [h0]
  · intro pre post hT h1 h2
    have hc := countPlaceholders_single pre post h1 h2
    rw [buildReqURLSelect_eq] at hT
    simp only at hT
    rw [buildReqURL_eq, buildReqURLSelect_eq]
    simp only
    rw [hT, hc]
    have hsub : substituteMethod (pre ++ "%s" ++ post) request.Method
        = pre ++ request.Method ++ post := by
      have hs : (pre ++ "%s" ++ post).toList = pre.toList ++ '%' :: 's' :: post.toList := by
        simp [String.toList]
      unfold substituteMethod
      rw [hs, replacePair_append '%' 's' _ _ _ h1, replacePair_not_mem '%' 's' _ _ h2]
      apply String.ext
      simp [String.toList]
    simp [hS pre post request.Method h1 h2, hsub]

theorem buildReqURL_resolves_witness :
    SprintfSubstitutes exampleEnv.Sprintf
      ∧ countPlaceholders (buildReqURLSelect exampleEnv (exampleRequest none []) exampleProvider).1
        = 1
      ∧ (buildReqURL exampleEnv (exampleRequest none []) exampleProvider).1 = "https://h/" ++ "foo" ++ ""
      ∧ (buildReqURL exampleEnv (exampleRequest none []) exampleProvider).1
        = substituteMethod
            (buildReqURLSelect exampleEnv (exampleRequest none []) exampleProvider).1 "foo"
      ∧ (buildReqURL exampleEnv (exampleRequest none []) exampleProvider).2.2 = none :=
  ⟨goSprintf_substitutes,
    (buildReqURL_resolves exampleEnv (exampleRequest none []) exampleProvider
      goSprintf_substitutes).2 "https://h/" "" (by decide) (by decide) (by decide)⟩

/-- C12: `buildReqURL` returns an error exactly when the selected template
has more than one occurrence of `%s`; the message is then `Get err
URL_FORMAT: ` followed by the template, and with zero or one occurrence the
error is nil. -/
theorem buildReqURL_error (env : ProviderEnv) (request : MotanRequest) (h : HTTPProvider) :
    (buildReqURL env request h).2.2
        = (if 1 < countPlaceholders (buildReqURLSelect env request h).1 then
            some ("Get err URL_FORMAT: " ++ (buildReqURLSelect env request h).1)
          else none)
      ∧ ((buildReqURL env request h).2.2 ≠ none
          ↔ 1 < countPlaceholders (buildReqURLSelect env request h).1) := by
  rw [buildReqURL_eq, buildReqURLSelect_eq]
  simp only
  by_cases h1 : 1 < countPlaceholders (selectedTemplate env request h)
  · simp [h1]
  · by_cases h0 : 0 < countPlaceholders (selectedTemplate env request h) <;> simp [h1, h0]

/-- C13: the HTTP method returned by `buildReqURL` is the layered lookup: the
`HTTP_Method` attachment if set, else the `HTTP_REQUEST_METHOD` of the
selected external configuration, else that of the provider URL, else `GET`;
and the attachments never change the resolved URL nor the error. -/
theorem buildReqURL_method (env : ProviderEnv) (request : MotanRequest) (h : HTTPProvider) :
    (buildReqURL env request h).2.1 = layeredHTTPMethod env request h
      ∧ ∀ attachment : GoMap String String,
          (buildReqURL env { request with Attachment := attachment } h).1
              = (buildReqURL env request h).1
            ∧ (buildReqURL env { request with Attachment := attachment } h).2.2
              = (buildReqURL env request h).2.2 := by
  constructor
  · rw [buildReqURL_eq]
    split_ifs <;> rfl
  · intro attachment
    have hT : selectedTemplate env { request with Attachment := attachment } h
        = selectedTemplate env request h := rfl
    rw [buildReqURL_eq, buildReqURL_eq, hT]
    split_ifs <;> exact ⟨rfl, rfl⟩

/-- C14: the URL template that `buildReqURL` resolves is the one of the
selected external configuration: with a section named by `URLConfKey`, the
entry of the motan method, else the default entry, gives its `URL_FORMAT` if
it has one, and otherwise, as when no section matches, the provider URL's
`URL_FORMAT` is used; an entry of the method without `URL_FORMAT` does not fall
back to the default entry. -/
theorem buildReqURL_template (env : ProviderEnv) (request : MotanRequest) (h : HTTPProvider) :
    (buildReqURLSelect env request h).1 = selectedTemplate env request h
      ∧ (buildReqURL env request h).1
        = (if 1 < countPlaceholders (selectedTemplate env request h) then ""
          else if 0 < countPlaceholders (selectedTemplate env request h) then
            env.Sprintf (selectedTemplate env request h) request.Method
          else selectedTemplate env request h)
      ∧ buildReqURL exampleEnv (exampleRequest none []) configuredProvider
        = ("https://h/foo", "POST", none) := by
  refine ⟨?_, ?_, by decide⟩
  · rw [buildReqURLSelect_eq]
  · rw [buildReqURL_eq]
    split_ifs <;> rfl

/-! ## Query string -/

/-- C15: for a request with id 7 whose arguments array is nil or empty,
`buildQueryStr` returns the empty string and not `requestIdFromClient=7`,
because the id is written inside the test that the arguments array is not
empty; with a first argument that is a string, an empty map or a value of
another type the id is written. -/
theorem buildQueryStr_no_arguments_empty :
    buildQueryStr exampleEnv (exampleRequest none []) exampleProvider.mixVars = Except.ok ""
      ∧ buildQueryStr exampleEnv (exampleRequest (some []) []) exampleProvider.mixVars
        = Except.ok ""
      ∧ buildQueryStr exampleEnv (exampleRequest none []) exampleProvider.mixVars
        ≠ Except.ok ("requestIdFromClient=" ++ toString (exampleRequest none []).RequestID)
      ∧ buildQueryStr exampleEnv (exampleRequest (some [GoValue.other]) [])
          exampleProvider.mixVars
        = Except.ok "requestIdFromClient=7"
      ∧ buildQueryStr exampleEnv (exampleRequest (some [GoValue.mapStringString []]) [])
          exampleProvider.mixVars
        = Except.ok "requestIdFromClient=7"
      ∧ buildQueryStr exampleEnv (exampleRequest (some [GoValue.string ""]) [])
          exampleProvider.mixVars
        = Except.ok "requestIdFromClient=7" := by
  refine ⟨rfl, rfl, ?_, rfl, rfl, rfl⟩
  intro h
  have h1 : ("" : String) = "requestIdFromClient=" ++ toString (7 : Nat) := Except.ok.inj h
  revert h1
  decide

/-- Without arguments `buildQueryStr` returns the empty string, whatever the
request id. -/
theorem buildQueryStr_no_arguments (env : ProviderEnv) (request : MotanRequest)
    (mixVars : Option (List String))
    (h : request.Arguments = none ∨ request.Arguments = some []) :
    buildQueryStr env request mixVars = Except.ok "" := by
  unfold buildQueryStr
  rcases h with h | h <;> rw [h]

theorem buildQueryStr_no_arguments_witness :
    ((exampleRequest (some []) [("traceId", "t1")]).Arguments = none
        ∨ (exampleRequest (some []) [("traceId", "t1")]).Arguments = some [])
      ∧ buildQueryStr exampleEnv (exampleRequest (some []) [("traceId", "t1")]) (some ["traceId"])
        = Except.ok "" :=
  ⟨Or.inr rfl, buildQueryStr_no_arguments exampleEnv _ _ (Or.inr rfl)⟩

/-- A first argument that is neither nil, a string nor a string-to-string map
gives the request id alone. -/
theorem buildQueryStr_other (env : ProviderEnv) (request : MotanRequest)
    (mixVars : Option (List String)) (rest : List GoValue)
    (h : request.Arguments = some (GoValue.other :: rest)) :
    buildQueryStr env request mixVars
      = Except.ok ("requestIdFromClient=" ++ toString request.RequestID) := by
  unfold buildQueryStr
  rw [h]

theorem GoMap.get?_eq_some_iff_mem {κ ν : Type} [DecidableEq κ] (m : GoMap κ ν)
    (hnd : (GoMap.keys m).Nodup) (k : κ) (v : ν) :
    GoMap.get? m k = some v ↔ (k, v) ∈ m := by
  induction m with
  | nil => simp [GoMap.get?]
  | cons p rest ih =>
    obtain ⟨k1, v1⟩ := p
    simp only [GoMap.keys, List.map_cons, List.nodup_cons] at hnd
    have ih1 := ih hnd.2
    by_cases hk : k1 = k
    · subst hk
      have hnot : ∀ w, (k1, w) ∉ rest := fun w hw => hnd.1 (List.mem_map_of_mem Prod.fst hw)
      simp only [GoMap.get?, if_true, Option.some.injEq, List.mem_cons, Prod.mk.injEq, true_and]
      constructor
      · intro e; exact Or.inl e.symm
      · rintro (e | e)
        · exact e.symm
        · exact absurd e (hnot v)
    · have hk1 : ¬ k = k1 := fun e => hk e.symm
      simp [GoMap.get?, hk, hk1, ih1]

/-- The loop over the mixVars, on a map that was made: it returns, keeps the
keys distinct, and the map it leaves is the effective map. -/
theorem mixInto_made (attachment : GoMap String String) (mixVars : List String) :
    ∀ m : GoMap String String,
      ∃ params, mixInto attachment mixVars (some m) = Except.ok (some params)
        ∧ ((GoMap.keys m).Nodup → (GoMap.keys params).Nodup)
        ∧ ∀ k, GoMap.get? params k = effectiveParam m attachment mixVars k := by
  induction mixVars with
  | nil =>
    intro m
    refine ⟨m, rfl, id, ?_⟩
    intro k
    unfold effectiveParam
    cases GoMap.get? m k <;> simp
  | cons k0 rest ih =>
    intro m
    cases hm : GoMap.get? m k0 with
    | some v0 =>
      obtain ⟨params, h1, h2, h3⟩ := ih m
      refine ⟨params, by simp [mixInto, hm, h1], h2, ?_⟩
      intro k
      rw [h3 k]
      unfold effectiveParam
      cases hk : GoMap.get? m k with
      | some v => rfl
      | none =>
        have hne : k ≠ k0 := by
          rintro rfl
          rw [hm] at hk
          cases hk
        simp [hne]
    | none =>
      cases ha : GoMap.get? attachment k0 with
      | none =>
        obtain ⟨params, h1, h2, h3⟩ := ih m
        refine ⟨params, by simp [mixInto, hm, ha, h1], h2, ?_⟩
        intro k
        rw [h3 k]
        unfold effectiveParam
        cases hk : GoMap.get? m k with
        | some v => rfl
        | none =>
          by_cases hkk : k = k0
          · subst hkk
            simp [ha]
          · simp [hkk]
      | some value =>
        obtain ⟨params, h1, h2, h3⟩ := ih (GoMap.set m k0 value)
        refine ⟨params, by simp [mixInto, hm, ha, h1],
          fun hnd => h2 (GoMap.nodup_keys_set m k0 value hnd), ?_⟩
        intro k
        rw [h3 k]
        unfold effectiveParam
        by_cases hkk : k = k0
        · subst hkk
          simp [GoMap.get?_set_self, hm, ha]
        · rw [GoMap.get?_set_ne m k0 k value hkk]
          cases GoMap.get? m k <;> simp [hkk]

/-- For a first argument that is a map `M` that was made, `buildQueryStr`
returns `requestIdFromClient=`, the decimal request id, and then one segment
`&k=QueryEscape(v)` for each entry `(k, v)` of the effective map and no other
segment, in some order; the effective map is `M` extended, for each mixVar
that is not a key of `M` and is in the attachments, with the attachment
value. -/
theorem buildQueryStr_map (env : ProviderEnv) (request : MotanRequest)
    (mixVars : Option (List String)) (m : GoMap String String) (rest : List GoValue)
    (hfirst : request.Arguments = some (GoValue.mapStringString m :: rest))
    (hnd : (GoMap.keys m).Nodup) :
    ∃ params : GoMap String String,
      buildQueryStr env request mixVars
          = Except.ok ("requestIdFromClient=" ++ toString request.RequestID
              ++ String.join (params.map (fun kv => "&" ++ kv.1 ++ "=" ++ env.QueryEscape kv.2)))
        ∧ (GoMap.keys params).Nodup
        ∧ ∀ k v, (k, v) ∈ params ↔
            effectiveParam m request.Attachment (mixVars.getD []) k = some v := by
  obtain ⟨params, h1, h2, h3⟩ := mixInto_made request.Attachment (mixVars.getD []) m
  refine ⟨params, ?_, h2 hnd, ?_⟩
  · unfold buildQueryStr
    rw [hfirst]
    simp only [h1]
    rfl
  · intro k v
    rw [← h3 k]
    exact (GoMap.get?_eq_some_iff_mem params (h2 hnd) k v).symm

theorem buildQueryStr_map_witness :
    (exampleRequest (some [GoValue.mapStringString [("k", "v"), ("spanId", "s0")]])
          [("traceId", "t1"), ("spanId", "s1")]).Arguments
        = some (GoValue.mapStringString [("k", "v"), ("spanId", "s0")] :: [])
      ∧ (GoMap.keys [("k", "v"), ("spanId", "s0")]).Nodup
      ∧ buildQueryStr exampleEnv
          (exampleRequest (some [GoValue.mapStringString [("k", "v"), ("spanId", "s0")]])
            [("traceId", "t1"), ("spanId", "s1")]) (some ["traceId", "spanId", "absent"])
        = Except.ok "requestIdFromClient=7&traceId=t1&k=v&spanId=s0"
      ∧ ∃ params : GoMap String String,
          buildQueryStr exampleEnv
              (exampleRequest (some [GoValue.mapStringString [("k", "v"), ("spanId", "s0")]])
                [("traceId", "t1"), ("spanId", "s1")]) (some ["traceId", "spanId", "absent"])
            = Except.ok ("requestIdFromClient="
                ++ toString (exampleRequest (some [GoValue.mapStringString
                    [("k", "v"), ("spanId", "s0")]]) [("traceId", "t1"), ("spanId", "s1")]).RequestID
                ++ String.join (params.map
                    (fun kv => "&" ++ kv.1 ++ "=" ++ exampleEnv.QueryEscape kv.2)))
          ∧ (GoMap.keys params).Nodup
          ∧ ∀ k v, (k, v) ∈ params ↔
              effectiveParam [("k", "v"), ("spanId", "s0")]
                (exampleRequest (some [GoValue.mapStringString [("k", "v"), ("spanId", "s0")]])
                  [("traceId", "t1"), ("spanId", "s1")]).Attachment
                ((some ["traceId", "spanId", "absent"] : Option (List String)).getD []) k
              = some v :=
  ⟨rfl, by decide, rfl,
    buildQueryStr_map exampleEnv _ (some ["traceId", "spanId", "absent"])
      [("k", "v"), ("spanId", "s0")] [] rfl (by decide)⟩

/-- C16: for a first argument that is the nil `map[string]string`, a mixVar
`traceId` and an attachment `traceId=t1`, the effective map has the entry
`traceId=t1`, but `buildQueryStr` panics when it stores the entry in the nil
map, and the panic leaves `Call`; on the empty map that was made the same
request gives `requestIdFromClient=7&traceId=t1`, and the nil map gives the id
alone when no mixVar is to be stored. -/
theorem buildQueryStr_nil_map_panics :
    effectiveParam [] (exampleRequest (some [GoValue.nilMapStringString])
        [("traceId", "t1")]).Attachment ["traceId"] "traceId" = some "t1"
      ∧ buildQueryStr exampleEnv
          (exampleRequest (some [GoValue.nilMapStringString]) [("traceId", "t1")])
          (some ["traceId"])
        = Except.error "assignment to entry in nil map"
      ∧ Call exampleEnv exampleProvider
          (exampleRequest (some [GoValue.nilMapStringString]) [("traceId", "t1")])
        = Except.error "assignment to entry in nil map"
      ∧ buildQueryStr exampleEnv
          (exampleRequest (some [GoValue.mapStringString []]) [("traceId", "t1")])
          (some ["traceId"])
        = Except.ok "requestIdFromClient=7&traceId=t1"
      ∧ buildQueryStr exampleEnv
          (exampleRequest (some [GoValue.nilMapStringString]) [("other", "t1")])
          (some ["traceId"])
        = Except.ok "requestIdFromClient=7" :=
  ⟨rfl, rfl, rfl, rfl, rfl⟩

/-! ## Headers of the outbound request -/

theorem replacePair_of_count_zero (a b : Char) (new l : List Char)
    (h : countPair a b l = 0) : replacePair a b new l = l := by
  induction l with
  | nil => rfl
  | cons c tl ih =>
    cases tl with
    | nil => rfl
    | cons d rest =>
      by_cases hm : c = a ∧ d = b
      · simp [countPair, hm] at h
      · simp only [countPair, hm, if_false] at h
        simp only [replacePair, hm, if_false]
        rw [ih h]

/-- C17 as stated fails: `M_` is rewritten wherever it occurs in the
attachment key, not only as a prefix. -/
theorem attachment_key_rewritten_inside :
    attachmentHeaderOp ("X_M_y", "1") = HeaderOp.add "X_MOTAN-y" "1"
      ∧ prefixRewrite "X_M_y" = "X_M_y"
      ∧ attachmentHeaderOp ("M_aM_b", "1") = HeaderOp.add "MOTAN-aMOTAN-b" "1"
      ∧ prefixRewrite "M_aM_b" = "MOTAN-aM_b"
      ∧ HeaderOp.add "X_MOTAN-y" "1"
        ∈ outboundHeader (exampleRequest none [("X_M_y", "1")]) "127.0.0.1"
      ∧ HeaderOp.add (prefixRewrite "X_M_y") "1"
        ∉ outboundHeader (exampleRequest none [("X_M_y", "1")]) "127.0.0.1" := by
  decide

/-- The values under a name after `Header.Set`. -/
theorem headerValues_set (canon : String → String) (header : GoMap String (List String))
    (name value n : String) :
    headerValues canon (applyHeaderOp canon header (HeaderOp.set name value)) n
      = if canon name = canon n then [value] else headerValues canon header n := by
  unfold headerValues applyHeaderOp
  by_cases h : canon name = canon n
  · rw [if_pos h, ← h, GoMap.get?_set_self]
    rfl
  · rw [if_neg h, GoMap.get?_set_ne _ _ _ _ (fun e => h e.symm)]

/-- The values under a name after `Header.Add`. -/
theorem headerValues_add (canon : String → String) (header : GoMap String (List String))
    (name value n : String) :
    headerValues canon (applyHeaderOp canon header (HeaderOp.add name value)) n
      = if canon name = canon n then headerValues canon header n ++ [value]
        else headerValues canon header n := by
  unfold applyHeaderOp
  by_cases h : canon name = canon n
  · rw [if_pos h]
    unfold headerValues
    rw [← h, GoMap.get?_set_self]
    rfl
  · rw [if_neg h]
    unfold headerValues
    rw [GoMap.get?_set_ne _ _ _ _ (fun e => h e.symm)]

/-- Copying attachments into a header keeps the values that it has. -/
theorem mem_headerValues_attachments (canon : String → String) (n v : String)
    (entries : List (String × String)) :
    ∀ header : GoMap String (List String), v ∈ headerValues canon header n →
      v ∈ headerValues canon
        ((entries.map attachmentHeaderOp).foldl (applyHeaderOp canon) header) n := by
  induction entries with
  | nil => intro header h; exact h
  | cons e rest ih =>
    intro header h
    simp only [List.map_cons, List.foldl_cons]
    apply ih
    unfold attachmentHeaderOp
    rw [headerValues_add]
    split_ifs
    · exact List.mem_append_left _ h
    · exact h

/-- Copying attachments into a header puts the value of each under its
rewritten key. -/
theorem mem_headerValues_attachment (canon : String → String) (k v : String)
    (entries : List (String × String)) (hmem : (k, v) ∈ entries) :
    ∀ header : GoMap String (List String),
      v ∈ headerValues canon
        ((entries.map attachmentHeaderOp).foldl (applyHeaderOp canon) header)
        (rewriteAttachmentKey k) := by
  induction entries with
  | nil => exact absurd hmem (List.not_mem_nil _)
  | cons e rest ih =>
    intro header
    simp only [List.map_cons, List.foldl_cons]
    rcases List.mem_cons.1 hmem with h | h
    · apply mem_headerValues_attachments
      subst h
      unfold attachmentHeaderOp
      rw [headerValues_add, if_pos rfl]
      exact List.mem_append_right _ (List.mem_singleton_self _)
    · exact ih h _

/-- The values of the header of the outbound request, under any name: the
empty value alone under `Accept-Encoding`, and elsewhere what the calls before
the last one left. -/
theorem headerValues_requestHeader (canon : String → String) (request : MotanRequest)
    (ip n : String) :
    headerValues canon (requestHeader canon request ip) n
      = if canon "Accept-Encoding" = canon n then [""]
        else headerValues canon
          (applyHeaderOp canon
            ((request.Attachment.map attachmentHeaderOp).foldl (applyHeaderOp canon)
              (applyHeaderOp canon []
                (HeaderOp.set "Content-Type" "application/x-www-form-urlencoded")))
            (HeaderOp.add "x-forwarded-for" ip)) n := by
  unfold requestHeader outboundHeader
  simp only [List.foldl_append, List.foldl_cons, List.foldl_nil]
  rw [headerValues_set]

/-- C17, amended: in rewrite mode every request attachment `(k, v)` is added
to the outbound header with value `v` under the name `k` with every occurrence
of `M_` replaced by `MOTAN-`, and `v` is one of the values that the header
of the outbound request holds under that name, unless the name is
`Accept-Encoding` up to the case of its letters: that header is set to the
empty value after the attachments are copied.  The replacement goes from the left, a key that starts
with `M_` and has no `M_` in its remainder becomes `MOTAN-` followed by the
remainder, and a key without `M_` is unchanged. -/
theorem attachment_header (canon : String → String) (request : MotanRequest) (ip : String)
    (k v : String) (hmem : (k, v) ∈ request.Attachment) :
    HeaderOp.add (rewriteAttachmentKey k) v ∈ outboundHeader request ip
      ∧ (if canon (rewriteAttachmentKey k) = canon "Accept-Encoding" then
          headerValues canon (requestHeader canon request ip) (rewriteAttachmentKey k) = [""]
        else v ∈ headerValues canon (requestHeader canon request ip) (rewriteAttachmentKey k))
      ∧ (∀ pre post : String, 'M' ∉ pre.toList →
          rewriteAttachmentKey (pre ++ "M_" ++ post)
            = pre ++ "MOTAN-" ++ rewriteAttachmentKey post)
      ∧ (∀ rest : String, countPair 'M' '_' rest.toList = 0 →
          rewriteAttachmentKey ("M_" ++ rest) = "MOTAN-" ++ rest)
      ∧ (countPair 'M' '_' k.toList = 0 → rewriteAttachmentKey k = k) := by
  refine ⟨?_, ?_, ?_, ?_, ?_⟩
  · unfold outboundHeader
    simp only [List.mem_append, List.mem_map]
    exact Or.inl (Or.inr ⟨(k, v), hmem, rfl⟩)
  · rw [headerValues_requestHeader]
    by_cases h : canon (rewriteAttachmentKey k) = canon "Accept-Encoding"
    · rw [if_pos h, if_pos h.symm]
    · rw [if_neg h, if_neg (fun e => h e.symm), headerValues_add]
      have hv := mem_headerValues_attachment canon k v request.Attachment hmem
        (applyHeaderOp canon [] (HeaderOp.set "Content-Type" "application/x-www-form-urlencoded"))
      split_ifs
      · exact List.mem_append_left _ hv
      · exact hv
  · intro pre post hpre
    have hs : (pre ++ "M_" ++ post).toList = pre.toList ++ 'M' :: '_' :: post.toList := by
      simp [String.toList]
    unfold rewriteAttachmentKey
    rw [hs, replacePair_append 'M' '_' _ _ _ hpre]
    apply String.ext
    simp [String.toList]
  · intro rest hrest
    have hs : ("M_" ++ rest).toList = 'M' :: '_' :: rest.toList := by
      simp [String.toList]
    unfold rewriteAttachmentKey
    rw [hs]
    simp only [replacePair, and_self, if_true]
    rw [replacePair_of_count_zero 'M' '_' _ _ hrest]
    apply String.ext
    simp [String.toList]
  · intro hk
    unfold rewriteAttachmentKey
    rw [replacePair_of_count_zero 'M' '_' _ _ hk]
    rfl

/-- C17, amended, at the attachments `M_trace=42`, `host=10.0.0.9` and
`accept-encoding=gzip`: the header `MOTAN-trace`, in canonical form
`Motan-Trace`, has the value 42, and the header `Accept-Encoding` has the
empty value. -/
theorem attachment_header_witness :
    ("M_trace", "42") ∈ (exampleRequest none
        [("M_trace", "42"), ("host", "10.0.0.9"), ("accept-encoding", "gzip")]).Attachment
      ∧ rewriteAttachmentKey "M_trace" = "MOTAN-trace"
      ∧ canonicalMIMEHeaderKey "MOTAN-trace" = "Motan-Trace"
      ∧ requestHeader canonicalMIMEHeaderKey (exampleRequest none
          [("M_trace", "42"), ("host", "10.0.0.9"), ("accept-encoding", "gzip")]) "10.0.0.9"
        = [("Accept-Encoding", [""]), ("X-Forwarded-For", ["10.0.0.9"]),
            ("Host", ["10.0.0.9"]), ("Motan-Trace", ["42"]),
            ("Content-Type", ["application/x-www-form-urlencoded"])]
      ∧ HeaderOp.add "MOTAN-trace" "42"
        ∈ outboundHeader (exampleRequest none
            [("M_trace", "42"), ("host", "10.0.0.9"), ("accept-encoding", "gzip")]) "10.0.0.9"
      ∧ (if canonicalMIMEHeaderKey (rewriteAttachmentKey "M_trace")
            = canonicalMIMEHeaderKey "Accept-Encoding" then
          headerValues canonicalMIMEHeaderKey
            (requestHeader canonicalMIMEHeaderKey (exampleRequest none
              [("M_trace", "42"), ("host", "10.0.0.9"), ("accept-encoding", "gzip")])
              "10.0.0.9") (rewriteAttachmentKey "M_trace") = [""]
        else "42" ∈ headerValues canonicalMIMEHeaderKey
            (requestHeader canonicalMIMEHeaderKey (exampleRequest none
              [("M_trace", "42"), ("host", "10.0.0.9"), ("accept-encoding", "gzip")])
              "10.0.0.9") (rewriteAttachmentKey "M_trace")) :=
  ⟨by decide, by decide, by decide, by decide,
    (attachment_header canonicalMIMEHeaderKey (exampleRequest none
      [("M_trace", "42"), ("host", "10.0.0.9"), ("accept-encoding", "gzip")])
      "10.0.0.9" "M_trace" "42" (by decide)).1,
    (attachment_header canonicalMIMEHeaderKey (exampleRequest none
      [("M_trace", "42"), ("host", "10.0.0.9"), ("accept-encoding", "gzip")])
      "10.0.0.9" "M_trace" "42" (by decide)).2.1⟩

/-! ## The call -/

/-- The response of the rewrite-mode part of `Call` carries the request id of
the response it was given. -/
theorem callRewrite_requestID (env : ProviderEnv) (h : HTTPProvider) (request : MotanRequest)
    (resp out : MotanResponse) (ip : String)
    (hc : callRewrite env h request resp ip = Except.ok out) :
    out.RequestID = resp.RequestID := by
  unfold callRewrite at hc
  split at hc
  · cases hc; rfl
  · split at hc
    · cases hc
    · simp only at hc
      split at hc
      · cases hc; rfl
      · split at hc
        · cases hc; rfl
        · split at hc
          · cases hc; rfl
          · cases hc; rfl

/-- When the deserialize hook succeeds, the response that `Call` returns has
the request id of the request. -/
theorem Call_requestID (env : ProviderEnv) (h : HTTPProvider) (request : MotanRequest)
    (out : MotanResponse)
    (hd : ∃ r, env.deserialize request (parseBool (mapIndex request.Attachment "HTTP_PROXY"))
      = Except.ok r)
    (hc : Call env h request = Except.ok out) : out.RequestID = request.RequestID := by
  obtain ⟨⟨arguments, headerBytes, bodyBytes⟩, hd⟩ := hd
  unfold Call at hc
  simp only [hd] at hc
  split at hc
  · split at hc
    · cases hc; rfl
    · split at hc
      · cases hc; rfl
      · split at hc
        · cases hc; rfl
        · cases hc; rfl
  · exact callRewrite_requestID env h _ _ out _ hc

/-- C18: when the deserialize hook fails, `Call` returns before it sets
`resp.RequestID`: for a request with id 7 the response has request id 0. -/
theorem Call_deserialize_failure_requestID :
    ∃ resp, Call failingDeserializeEnv exampleProvider (exampleRequest none []) = Except.ok resp
      ∧ resp.Exception
        = some { ErrCode := 503, ErrMsg := "deserialize failed", ErrType := 503 }
      ∧ resp.RequestID = 0
      ∧ (exampleRequest none []).RequestID = 7
      ∧ resp.RequestID ≠ (exampleRequest none []).RequestID :=
  ⟨_, rfl, rfl, rfl, rfl, by decide⟩

/-- Except for a nil first argument and a nil map that a mixVar is to be
stored in, `buildQueryStr` returns. -/
theorem buildQueryStr_returns (env : ProviderEnv) (request : MotanRequest)
    (mixVars : Option (List String))
    (h : request.Arguments = none ∨ request.Arguments = some []
      ∨ (∃ s rest, request.Arguments = some (GoValue.string s :: rest))
      ∨ (∃ m rest, request.Arguments = some (GoValue.mapStringString m :: rest))
      ∨ (∃ rest, request.Arguments = some (GoValue.other :: rest))) :
    ∃ res, buildQueryStr env request mixVars = Except.ok res := by
  unfold buildQueryStr
  rcases h with h | h | ⟨s, rest, h⟩ | ⟨m, rest, h⟩ | ⟨rest, h⟩ <;> rw [h]
  · exact ⟨_, rfl⟩
  · exact ⟨_, rfl⟩
  · exact ⟨_, rfl⟩
  · obtain ⟨params, h1, _, _⟩ := mixInto_made request.Attachment (mixVars.getD []) m
    simp only [h1]
    exact ⟨_, rfl⟩
  · exact ⟨_, rfl⟩

/-- C19: for an arguments array whose first element is nil, `buildQueryStr`
panics at `reflect.ValueOf(paramsTmp[0]).Type()`, and the panic leaves
`Call`; the nil `map[string]string` panics as well when a mixVar is to be
stored in it. -/
theorem buildQueryStr_nil_argument_panics :
    buildQueryStr exampleEnv (exampleRequest (some [GoValue.nil]) []) exampleProvider.mixVars
        = Except.error "reflect: call of reflect.Value.Type on zero Value"
      ∧ Call exampleEnv exampleProvider (exampleRequest (some [GoValue.nil]) [])
        = Except.error "reflect: call of reflect.Value.Type on zero Value"
      ∧ buildQueryStr exampleEnv
          (exampleRequest (some [GoValue.nilMapStringString]) [("traceId", "t1")])
          exampleProvider.mixVars
        = Except.error "assignment to entry in nil map" :=
  ⟨rfl, rfl, rfl⟩

/-! ## Children to URLs -/

theorem digitChar_decimal : ∀ d : Fin 10,
    '0' ≤ Nat.digitChar d.val ∧ Nat.digitChar d.val ≤ '9'
      ∧ (Nat.digitChar d.val).toNat - '0'.toNat = d.val := by
  decide

theorem decimalAcc_digitChar (a n : Nat) (ds : List Char) :
    decimalAcc a (Nat.digitChar (n % 10) :: ds) = decimalAcc (a * 10 + n % 10) ds := by
  obtain ⟨h1, h2, h3⟩ := digitChar_decimal ⟨n % 10, Nat.mod_lt n (by decide)⟩
  simp only at h1 h2 h3
  simp only [decimalAcc, h1, h2, and_self, if_true, h3]

/-- Reading the digits that `Nat.toDigitsCore` writes in front of `ds` adds
the number to the value read so far. -/
theorem decimalAcc_toDigitsCore (fuel : Nat) :
    ∀ (n : Nat) (ds : List Char) (a : Nat), n < fuel →
      ∃ k, decimalAcc a (Nat.toDigitsCore 10 fuel n ds) = decimalAcc (a * 10 ^ k + n) ds := by
  induction fuel with
  | zero => intro n ds a h; omega
  | succ fuel ih =>
    intro n ds a h
    by_cases hz : n / 10 = 0
    · refine ⟨1, ?_⟩
      have hn : n % 10 = n := Nat.mod_eq_of_lt (by omega)
      simp only [Nat.toDigitsCore, hz, if_true, pow_one]
      rw [decimalAcc_digitChar, hn]
    · obtain ⟨k, hk⟩ := ih (n / 10) (Nat.digitChar (n % 10) :: ds) a (by omega)
      refine ⟨k + 1, ?_⟩
      simp only [Nat.toDigitsCore, hz, if_false, hk, decimalAcc_digitChar]
      congr 1
      have := Nat.div_add_mod n 10
      rw [pow_succ]
      nlinarith [Nat.div_add_mod n 10]

theorem toDigitsCore_ne_nil (fuel : Nat) :
    ∀ (n : Nat) (ds : List Char), ds ≠ [] → Nat.toDigitsCore 10 fuel n ds ≠ [] := by
  induction fuel with
  | zero => intro n ds h; simpa [Nat.toDigitsCore] using h
  | succ fuel ih =>
    intro n ds h
    simp only [Nat.toDigitsCore]
    split_ifs
    · simp
    · exact ih _ _ (by simp)

theorem toDigits_ne_nil (n : Nat) : Nat.toDigits 10 n ≠ [] := by
  unfold Nat.toDigits
  simp only [Nat.toDigitsCore]
  split_ifs
  · simp
  · exact toDigitsCore_ne_nil _ _ _ (by simp)

/-- The decimal text of a natural number reads back as the number. -/
theorem decimalValue_toString (n : Nat) : decimalValue (toString n).toList = some n := by
  have hl : (toString n).toList = Nat.toDigits 10 n := rfl
  rw [hl]
  obtain ⟨k, hk⟩ := decimalAcc_toDigitsCore (n + 1) n [] 0 (by omega)
  have hne := toDigits_ne_nil n
  unfold decimalValue
  cases hd : Nat.toDigits 10 n with
  | nil => exact absurd hd hne
  | cons c cs =>
    simp only
    rw [← hd]
    unfold Nat.toDigits
    rw [hk]
    simp [decimalAcc]

theorem decimalAcc_chars (l : List Char) :
    ∀ (a v : Nat), decimalAcc a l = some v → ∀ c ∈ l, '0' ≤ c ∧ c ≤ '9' := by
  induction l with
  | nil => intro a v _ c hc; simp at hc
  | cons d l ih =>
    intro a v h c hc
    simp only [decimalAcc] at h
    split_ifs at h with hd
    rcases List.mem_cons.mp hc with hc | hc
    · rw [hc]; exact hd
    · exact ih _ _ h c hc

theorem decimalValue_chars (l : List Char) (v : Nat) (h : decimalValue l = some v) :
    l ≠ [] ∧ ∀ c ∈ l, '0' ≤ c ∧ c ≤ '9' := by
  unfold decimalValue at h
  cases l with
  | nil => cases h
  | cons c cs => exact ⟨by simp, decimalAcc_chars _ 0 v h⟩

/-- The value that `Atoi` gives for a string of decimal digits within the
range of `int`. -/
theorem atoi_digits (p : String) (n : Nat) (hp : decimalValue p.toList = some n)
    (hn : n < 2 ^ 63) : atoi p = (n : Int) := by
  obtain ⟨hne, hch⟩ := decimalValue_chars _ _ hp
  unfold atoi
  cases hl : p.toList with
  | nil => exact absurd hl hne
  | cons c cs =>
    rw [hl] at hp hch
    have hc := hch c (List.mem_cons_self _ _)
    have h1 : c ≠ '-' := by
      rintro rfl
      exact absurd hc.1 (by decide)
    have h2 : c ≠ '+' := by
      rintro rfl
      exact absurd hc.1 (by decide)
    simp only [h1, h2, if_false, hp]
    rw [if_neg (by omega)]

/-- The value that `Atoi` gives for the decimal text of an integer within the
range of `int`. -/
theorem atoi_toString (p : Int) (hlo : -(2 ^ 63 : Int) ≤ p) (hhi : p < 2 ^ 63) :
    atoi (toString p) = p := by
  cases p with
  | ofNat n =>
    have hn : n < 2 ^ 63 := by
      have : (n : Int) < 2 ^ 63 := hhi
      exact_mod_cast this
    exact atoi_digits (toString n) n (decimalValue_toString n) hn
  | negSucc k =>
    have hl : (toString (Int.negSucc k)).toList = '-' :: (toString (k + 1)).toList := rfl
    have hk : k + 1 ≤ 2 ^ 63 := by
      have : -(2 ^ 63 : Int) ≤ Int.negSucc k := hlo
      rw [Int.negSucc_eq] at this
      have h2 : ((k : Int) + 1) ≤ 2 ^ 63 := by linarith
      exact_mod_cast h2
    unfold atoi
    rw [hl]
    simp only [if_true, decimalValue_toString]
    rw [if_neg (by omega), Int.negSucc_eq]
    push_cast
    rfl

/-- A text without separator is its only part. -/
theorem splitOn_sep_free (xs : List Char) (h : '/' ∉ xs) : xs.splitOn '/' = [xs] := by
  simp only [List.splitOn]
  refine List.splitOnP_eq_single _ xs ?_
  intro x hx hx2
  simp at hx2
  exact h (hx2 ▸ hx)

/-- The first part of a text ends at its first separator. -/
theorem splitOn_sep_first (xs ys : List Char) (h : '/' ∉ xs) :
    (xs ++ '/' :: ys).splitOn '/' = xs :: ys.splitOn '/' := by
  simp only [List.splitOn]
  refine List.splitOnP_first _ xs ?_ '/' (by simp) ys
  intro x hx hx2
  simp at hx2
  exact h (hx2 ▸ hx)

/-- The characters of an absolute path with a first component. -/
theorem absPath_cons_toList (c : String) (cs : List String) :
    (absPath (c :: cs)).toList = '/' :: (c.toList ++ (absPath cs).toList) := by
  simp [absPath, String.toList]

/-- The parts of an absolute path are its components, after the text before
the first separator. -/
theorem splitOn_absPath (cs : List String) (hcs : ∀ c ∈ cs, '/' ∉ c.toList) :
    ∀ xs : List Char, '/' ∉ xs →
      (xs ++ (absPath cs).toList).splitOn '/' = xs :: cs.map String.toList := by
  induction cs with
  | nil =>
    intro xs hxs
    simpa [absPath] using splitOn_sep_free xs hxs
  | cons c cs ih =>
    intro xs hxs
    rw [absPath_cons_toList, splitOn_sep_first xs _ hxs,
      ih (fun d hd => hcs d (List.mem_cons_of_mem _ hd)) c.toList (hcs c (List.mem_cons_self _ _))]
    simp

/-- Joining the components with the separator gives the absolute path. -/
theorem intercalate_absPath (cs : List String) :
    ∀ xs : List Char,
      List.intercalate ['/'] (xs :: cs.map String.toList) = xs ++ (absPath cs).toList := by
  induction cs with
  | nil => intro xs; simp [absPath, List.intercalate]
  | cons c cs ih =>
    intro xs
    have h := ih c.toList
    rw [absPath_cons_toList, ← h]
    simp [List.intercalate]

/-- An absolute path with a last component. -/
theorem absPath_snoc (cs : List String) (c : String) :
    absPath (cs ++ [c]) = absPath cs ++ "/" ++ c := by
  induction cs with
  | nil => simp [absPath]
  | cons d cs ih => simp [absPath, ih, String.append_assoc]

/-- The parent path computed by `createPersistent` drops the last
component. -/
theorem parentPath_absPath_snoc (cs : List String) (c : String)
    (hcs : ∀ d ∈ cs, '/' ∉ d.toList) (hc : '/' ∉ c.toList) :
    parentPath (absPath (cs ++ [c])) = absPath cs := by
  have h := splitOn_absPath (cs ++ [c]) (by
    intro d hd
    rcases List.mem_append.1 hd with h1 | h1
    · exact hcs d h1
    · simp at h1; subst h1; exact hc) [] (by simp)
  simp only [List.nil_append] at h
  unfold parentPath
  rw [h]
  have h2 : ([] :: List.map String.toList (cs ++ [c])).dropLast = [] :: cs.map String.toList := by
    rw [List.map_append, ← List.cons_append]
    exact List.dropLast_concat
  rw [h2, intercalate_absPath]
  rfl

/-- An absolute path with a component is not the empty text. -/
theorem absPath_ne_empty (cs : List String) (hne : cs ≠ []) : absPath cs ≠ "" := by
  cases cs with
  | nil => exact absurd rfl hne
  | cons c cs =>
    intro h
    have h2 := congrArg String.toList h
    rw [absPath_cons_toList] at h2
    simp at h2

/-- The parent of a node directly under the root is the root. -/
theorem nodeParent_absPath_single (c : String) (hc : '/' ∉ c.toList) :
    nodeParent (absPath [c]) = zkRoot := by
  have h := parentPath_absPath_snoc [] c (by simp) hc
  simp only [List.nil_append] at h
  unfold nodeParent
  rw [h]
  rfl

/-- The parent of a deeper node is the path without the last component. -/
theorem nodeParent_absPath_snoc (cs : List String) (c : String) (hne : cs ≠ [])
    (hcs : ∀ d ∈ cs, '/' ∉ d.toList) (hc : '/' ∉ c.toList) :
    nodeParent (absPath (cs ++ [c])) = absPath cs := by
  simp [nodeParent, parentPath_absPath_snoc cs c hcs hc, absPath_ne_empty cs hne]

/-- The prefixes of a path with one more component. -/
theorem pathPrefixes_snoc (cs : List String) (c : String) :
    pathPrefixes (cs ++ [c]) = pathPrefixes cs ++ [absPath (cs ++ [c])] := by
  unfold pathPrefixes
  rw [List.length_append, List.length_singleton, List.range_succ, List.map_append]
  congr 1
  · apply List.map_congr_left
    intro k hk
    rw [List.mem_range] at hk
    rw [List.take_append_of_le_length (by omega)]
  · have h : cs.length + 1 = (cs ++ [c]).length := by simp
    simp only [List.map_cons, List.map_nil]
    rw [h, List.take_length]

/-- A path is the last of its prefixes. -/
theorem absPath_mem_pathPrefixes (cs : List String) (hne : cs ≠ []) :
    absPath cs ∈ pathPrefixes cs := by
  induction cs using List.reverseRecOn with
  | nil => exact absurd rfl hne
  | append_singleton cs c _ => rw [pathPrefixes_snoc]; simp

/-- In a store with the parent rule the parent of every existing node
exists: otherwise `Create` on the node would report `ErrNoNode` and another
error at once. -/
theorem treeStore_parent_exists {σ : Type} (zk : ZkConn σ) (hzk : TreeStore zk) (s : σ)
    (q : String) (hq : nodeExists zk s q = true) : nodeExists zk s (nodeParent q) = true := by
  cases hpar : nodeExists zk s (nodeParent q) with
  | true => rfl
  | false =>
    obtain ⟨err, h1, h2⟩ := hzk.create_exists s q "" 0 hq
    rw [hzk.create_noNode s q "" 0 hpar] at h1
    exact absurd (Except.error.inj h1).symm h2

/-- When parents of existing nodes exist, every prefix of an existing path
exists. -/
theorem pathPrefixes_exist {σ : Type} (zk : ZkConn σ) (s : σ)
    (hs : ∀ q, nodeExists zk s q = true → nodeExists zk s (nodeParent q) = true)
    (cs : List String) (hcs : ∀ c ∈ cs, '/' ∉ c.toList) :
    nodeExists zk s (absPath cs) = true → ∀ a ∈ pathPrefixes cs, nodeExists zk s a = true := by
  induction cs using List.reverseRecOn with
  | nil =>
    intro _ a ha
    simp [pathPrefixes] at ha
  | append_singleton cs c ih =>
    intro hex a ha
    have hcs1 : ∀ d ∈ cs, '/' ∉ d.toList := fun d hd => hcs d (List.mem_append_left _ hd)
    have hc : '/' ∉ c.toList := hcs c (by simp)
    rw [pathPrefixes_snoc] at ha
    rcases List.mem_append.1 ha with h1 | h1
    · by_cases hne : cs = []
      · subst hne
        simp [pathPrefixes] at h1
      · have hp := hs _ hex
        rw [nodeParent_absPath_snoc cs c hne hcs1 hc] at hp
        exact ih hcs1 hp a h1
    · simp at h1
      subst h1
      exact hex

/-- When the node or its parent exists, `createPersistent` returns after one
`Create` call, and afterwards the node exists and nothing else changed. -/
theorem createPersistent_direct {σ : Type} (zk : ZkConn σ) (hzk : TreeStore zk) (s : σ)
    (path : String)
    (h : nodeExists zk s path = true ∨ nodeExists zk s (nodeParent path) = true) (fuel : Nat) :
    ∃ s1, createPersistent zk s path true (fuel + 1) = some s1
      ∧ ∀ q, nodeExists zk s1 q = (decide (q = path) || nodeExists zk s q) := by
  cases hex : nodeExists zk s path with
  | true =>
    obtain ⟨err, hcr, herr⟩ := hzk.create_exists s path "" 0 hex
    refine ⟨s, ?_, ?_⟩
    · simp [createPersistent, hcr, herr]
    · intro q
      by_cases hq : q = path
      · subst hq
        simp [hex]
      · simp [hq]
  | false =>
    have hpar : nodeExists zk s (nodeParent path) = true := by
      rcases h with h | h
      · rw [hex] at h
        exact absurd h (by simp)
      · exact h
    obtain ⟨s1, hcr, hs1⟩ := hzk.create_ok s path "" 0 hex hpar
    exact ⟨s1, by simp [createPersistent, hcr], hs1⟩

/-- With a recursion budget of at least the number of components,
`createPersistent` returns, and afterwards exactly the prefixes of the path
and the nodes that existed before exist. -/
theorem createPersistent_tree {σ : Type} (zk : ZkConn σ) (hzk : TreeStore zk) (cs : List String)
    (hcs : ∀ c ∈ cs, '/' ∉ c.toList) (hne : cs ≠ []) :
    ∀ s : σ, nodeExists zk s zkRoot = true → ∀ fuel, cs.length ≤ fuel →
      ∃ s1, createPersistent zk s (absPath cs) true fuel = some s1
        ∧ ∀ q, nodeExists zk s1 q = (decide (q ∈ pathPrefixes cs) || nodeExists zk s q) := by
  induction cs using List.reverseRecOn with
  | nil => exact absurd rfl hne
  | append_singleton cs c ih =>
    intro s hs fuel hfuel
    have hcs1 : ∀ d ∈ cs, '/' ∉ d.toList := fun d hd => hcs d (List.mem_append_left _ hd)
    have hc : '/' ∉ c.toList := hcs c (by simp)
    obtain ⟨f, rfl⟩ : ∃ f, fuel = f + 1 := ⟨fuel - 1, by simp at hfuel; omega⟩
    have hlen : cs.length ≤ f := by simp at hfuel; omega
    by_cases hdirect : nodeExists zk s (absPath (cs ++ [c])) = true
        ∨ nodeExists zk s (nodeParent (absPath (cs ++ [c]))) = true
    · obtain ⟨s1, hrun, hs1⟩ := createPersistent_direct zk hzk s _ hdirect f
      refine ⟨s1, hrun, ?_⟩
      have hpre : ∀ a ∈ pathPrefixes cs, nodeExists zk s a = true := by
        intro a ha
        rcases hdirect with h | h
        · exact pathPrefixes_exist zk s (treeStore_parent_exists zk hzk s) (cs ++ [c]) hcs h a
            (by rw [pathPrefixes_snoc]; exact List.mem_append_left _ ha)
        · by_cases hne1 : cs = []
          · subst hne1
            simp [pathPrefixes] at ha
          · rw [nodeParent_absPath_snoc cs c hne1 hcs1 hc] at h
            exact pathPrefixes_exist zk s (treeStore_parent_exists zk hzk s) cs hcs1 h a ha
      intro q
      rw [hs1 q, pathPrefixes_snoc]
      by_cases hq : q ∈ pathPrefixes cs
      · simp [hq, hpre q hq]
      · simp [hq]
    · have hex : nodeExists zk s (absPath (cs ++ [c])) = false := by
        cases h : nodeExists zk s (absPath (cs ++ [c])) with
        | true => exact absurd (Or.inl h) hdirect
        | false => rfl
      have hpar : nodeExists zk s (nodeParent (absPath (cs ++ [c]))) = false := by
        cases h : nodeExists zk s (nodeParent (absPath (cs ++ [c]))) with
        | true => exact absurd (Or.inr h) hdirect
        | false => rfl
      have hne1 : cs ≠ [] := by
        intro h0
        subst h0
        rw [List.nil_append, nodeParent_absPath_single c hc, hs] at hpar
        exact absurd hpar (by simp)
      have hcr := hzk.create_noNode s _ "" 0 hpar
      obtain ⟨s1, hrun1, hs1⟩ := ih hcs1 hne1 s hs f hlen
      obtain ⟨g, rfl⟩ : ∃ g, f = g + 1 := by
        cases cs with
        | nil => exact absurd rfl hne1
        | cons d ds => exact ⟨f - 1, by simp at hlen; omega⟩
      have hpar1 : nodeExists zk s1 (nodeParent (absPath (cs ++ [c]))) = true := by
        rw [nodeParent_absPath_snoc cs c hne1 hcs1 hc, hs1]
        simp [absPath_mem_pathPrefixes cs hne1]
      obtain ⟨s2, hrun2, hs2⟩ := createPersistent_direct zk hzk s1 _ (Or.inr hpar1) g
      refine ⟨s2, ?_, ?_⟩
      · rw [createPersistent, hcr]
        simp only [and_self, if_true]
        rw [parentPath_absPath_snoc cs c hcs1 hc, hrun1]
        exact hrun2
      · intro q
        rw [hs2 q, hs1 q, pathPrefixes_snoc]
        by_cases hq : q = absPath (cs ++ [c])
        · simp [hq]
        · simp [hq]

/-- Existence in the store `treeConn`. -/
theorem nodeExists_treeConn (s : TreeNodes) (q : String) :
    nodeExists treeConn s q = decide (q = zkRoot ∨ q ∈ s.1) := rfl

/-- The store `treeConn` creates nodes by the parent rule. -/
theorem treeConn_tree : TreeStore treeConn where
  create_exists := by
    intro s path data flags h
    rw [nodeExists_treeConn, decide_eq_true_eq] at h
    have hp : nodeParent path = zkRoot ∨ nodeParent path ∈ s.1 := by
      rcases h with h | h
      · subst h
        exact Or.inl rfl
      · exact s.2 path h
    exact ⟨ZkErr.ErrNodeExists, by simp [treeConn, hp, h], by decide⟩
  create_noNode := by
    intro s path data flags h
    rw [nodeExists_treeConn, decide_eq_false_iff_not] at h
    simp [treeConn, h]
  create_ok := by
    intro s path data flags h hp
    rw [nodeExists_treeConn, decide_eq_false_iff_not] at h
    rw [nodeExists_treeConn, decide_eq_true_eq] at hp
    refine ⟨⟨path :: s.1, ?_⟩, ?_, ?_⟩
    · intro q hq
      rcases List.mem_cons.1 hq with h1 | h1
      · subst h1
        exact hp.imp id (List.mem_cons_of_mem _)
      · exact (s.2 q h1).imp id (List.mem_cons_of_mem _)
    · simp [treeConn, hp, h]
    · intro q
      simp only [nodeExists_treeConn, List.mem_cons]
      by_cases hq : q = path
      · simp [hq]
      · simp [hq]

/-- C21: against a store that creates nodes by the parent rule and in which
the root exists, `createPersistent(path, true)` on the absolute path
`/c1/.../cn` (at least one component, no separator inside a component)
returns for every recursion budget of at least `n`; afterwards the path, the
root and every ancestor of the path exist, every node that existed before
still exists, and no node outside the path and its ancestors was created. -/
theorem createPersistent_ensures_path {σ : Type} (zk : ZkConn σ) (hzk : TreeStore zk) (s : σ)
    (hroot : nodeExists zk s zkRoot = true) (cs : List String) (hne : cs ≠ [])
    (hcs : ∀ c ∈ cs, '/' ∉ c.toList) (fuel : Nat) (hfuel : cs.length ≤ fuel) :
    ∃ s1, createPersistent zk s (absPath cs) true fuel = some s1
      ∧ nodeExists zk s1 (absPath cs) = true
      ∧ nodeExists zk s1 zkRoot = true
      ∧ (∀ a ∈ pathPrefixes cs, nodeExists zk s1 a = true)
      ∧ (∀ q, nodeExists zk s q = true → nodeExists zk s1 q = true)
      ∧ (∀ q, nodeExists zk s1 q = true → q ∈ pathPrefixes cs ∨ nodeExists zk s q = true) := by
  obtain ⟨s1, hrun, hs1⟩ := createPersistent_tree zk hzk cs hcs hne s hroot fuel hfuel
  refine ⟨s1, hrun, ?_, ?_, ?_, ?_, ?_⟩
  · rw [hs1]
    simp [absPath_mem_pathPrefixes cs hne]
  · rw [hs1, hroot]
    simp
  · intro a ha
    rw [hs1]
    simp [ha]
  · intro q hq
    rw [hs1, hq]
    simp
  · intro q hq
    rw [hs1] at hq
    simpa using hq

/-- C21 at the type path of a server node of the test URL, on the store
with the root only: four levels are created with a recursion budget of
four. -/
theorem createPersistent_ensures_path_witness :
    absPath testTypePathComponents = "/motan/zkTestGroup/zkTestPath/server"
      ∧ pathPrefixes testTypePathComponents
        = ["/motan", "/motan/zkTestGroup", "/motan/zkTestGroup/zkTestPath",
            "/motan/zkTestGroup/zkTestPath/server"]
      ∧ nodeExists treeConn emptyTree zkRoot = true
      ∧ testTypePathComponents ≠ []
      ∧ (∀ c ∈ testTypePathComponents, '/' ∉ c.toList)
      ∧ testTypePathComponents.length ≤ 4
      ∧ ∃ s1, createPersistent treeConn emptyTree (absPath testTypePathComponents) true 4
            = some s1
          ∧ nodeExists treeConn s1 (absPath testTypePathComponents) = true
          ∧ nodeExists treeConn s1 zkRoot = true
          ∧ (∀ a ∈ pathPrefixes testTypePathComponents, nodeExists treeConn s1 a = true)
          ∧ (∀ q, nodeExists treeConn emptyTree q = true → nodeExists treeConn s1 q = true)
          ∧ (∀ q, nodeExists treeConn s1 q = true →
              q ∈ pathPrefixes testTypePathComponents
                ∨ nodeExists treeConn emptyTree q = true) :=
  ⟨by decide, by decide, by decide, by decide, by decide, by decide,
    createPersistent_ensures_path treeConn treeConn_tree emptyTree (by decide)
      testTypePathComponents (by decide) (by decide) 4 (by decide)⟩

/-- The budget is needed: four missing levels are not created with a
recursion budget of three. -/
theorem createPersistent_short_budget :
    (createPersistent treeConn emptyTree (absPath testTypePathComponents) true 3).isNone = true := by
  decide

end Motan
